import Mathlib

set_option maxRecDepth 100000

/-!
Verification of the MX80 transcript toolchain (`command_segmenter.py`,
`mx80_parser_engine.py`, `network_config_comparator.py`), shallowly
embedded over `List Char` strings.  Python strings are modelled as
`List Char`; each regular expression of the source is modelled by a
deterministic matcher.  For every pattern of the source the greedy
quantifiers are forced: each `\s+`/`\s*`/`[..]+`/`\d+` run is followed by
an element that can only start with a character excluded from the run, so
backtracking into a shorter run can never succeed; the one exception
(`\s*$` and the MPLS-ingress `\s+(\S*)\s+(.+)$` tail) is modelled with its
backtracking behaviour spelled out.
-/

/-- Python strings, modelled as lists of characters. -/
abbrev Str := List Char

/-- The characters Python's `str.strip` / `\s` treat as whitespace
(ASCII inputs). -/
def isPySpace (c : Char) : Bool :=
  c = ' ' || c = '\t' || c = '\n' || c = '\r' || c = '\x0b' || c = '\x0c'

/-- ASCII lowercasing, as used by `re.IGNORECASE` and `str.lower` on the
ASCII transcripts this program processes. -/
def lowc (c : Char) : Char := c.toLower

/-- `str.lstrip` (no argument): drop leading whitespace. -/
def pyLStrip (s : Str) : Str := s.dropWhile isPySpace

/-- `str.rstrip` (no argument): drop trailing whitespace. -/
def pyRStrip : Str → Str
  | [] => []
  | c :: tl =>
    match pyRStrip tl with
    | [] => if isPySpace c then [] else [c]
    | r => c :: r

/-- `str.strip` (no argument). -/
def pyStrip (s : Str) : Str := pyRStrip (pyLStrip s)

/-- `str.split('\n')`. -/
def splitNl : Str → List Str
  | [] => [[]]
  | c :: tl =>
    match splitNl tl with
    | [] => [[c]]
    | h :: t => if c = '\n' then [] :: h :: t else (c :: h) :: t

/-- `'\n'.join(lines)`. -/
def joinNl : List Str → Str
  | [] => []
  | [l] => l
  | l :: ls => l ++ '\n' :: joinNl ls

/-- `s.rsplit("\n", 1)[0]`: everything before the last newline (the whole
string when it has no newline). -/
def rsplitDropLast (s : Str) : Str :=
  match s.reverse.dropWhile (fun c => c ≠ '\n') with
  | [] => s
  | _ :: tl => tl.reverse

/-- Case-insensitive "the word `w` is a prefix of `s`". -/
def startsWithCI : Str → Str → Bool
  | [], _ => true
  | _ :: _, [] => false
  | w :: ws, c :: cs => (lowc c = lowc w) && startsWithCI ws cs

/-- Case-sensitive "the word `w` is a prefix of `s`". -/
def startsWithCS : Str → Str → Bool
  | [], _ => true
  | _ :: _, [] => false
  | w :: ws, c :: cs => (c = w) && startsWithCS ws cs

/-- Case-insensitive substring test (`w` occurs somewhere in `s`). -/
def containsCI (w : Str) : Str → Bool
  | [] => startsWithCI w []
  | s@(_ :: tl) => startsWithCI w s || containsCI w tl

/-- Case-sensitive substring test, Python's `w in s`. -/
def containsCS (w : Str) : Str → Bool
  | [] => startsWithCS w []
  | s@(_ :: tl) => startsWithCS w s || containsCS w tl

/-- A deterministic regex-fragment matcher: on success returns the
consumed prefix and the rest of the input. -/
abbrev M := Str → Option (Str × Str)

/-- Sequencing of matchers. -/
def pSeq (f g : M) : M := fun s =>
  match f s with
  | none => none
  | some (c1, r1) =>
    match g r1 with
    | none => none
    | some (c2, r2) => some (c1 ++ c2, r2)

/-- A literal under `re.IGNORECASE`: consumes `w.length` characters whose
lowercase forms agree with `w`. -/
def litCI (w : Str) : M := fun s =>
  if startsWithCI w s then some (s.take w.length, s.drop w.length) else none

/-- A case-sensitive literal. -/
def litCS (w : Str) : M := fun s =>
  if startsWithCS w s then some (s.take w.length, s.drop w.length) else none

/-- A maximal nonempty run of characters satisfying `p`. -/
def runPlus (p : Char → Bool) : M := fun s =>
  let r := s.takeWhile p
  if r.isEmpty then none else some (r, s.drop r.length)

/-- `\s+` (in all uses the next element starts with a non-space character,
so only the maximal run can succeed). -/
def wsPlus : M := runPlus isPySpace

/-- `\s*` (same remark). -/
def wsStar : M := fun s =>
  let r := s.takeWhile isPySpace
  some (r, s.drop r.length)

/-- `\d+` (maximal; always followed by an element that cannot start with a
digit). -/
def digitsPlus : M := runPlus Char.isDigit

/-- `\S+` (maximal). -/
def nonWsPlus : M := runPlus (fun c => !(isPySpace c))

/-- `\s*$` under `re.MULTILINE`: the engine keeps the longest whitespace
prefix after which the position is at end of input or just before a
newline; when the run is not followed by end of input this is the prefix
up to the last newline inside the run (no such newline: no match). -/
def eolWs : M := fun s =>
  let r := s.takeWhile isPySpace
  let rest := s.drop r.length
  if rest.isEmpty then some (r, rest)
  else
    let t := r.reverse.dropWhile (fun c => c ≠ '\n')
    if t.isEmpty then none
    else some ((t.drop 1).reverse, s.drop (t.length - 1))

/-- The numeric value of a digit string, Python's `int(...)` on a `\d+`
capture. -/
def digitsVal (d : Str) : Nat := d.foldl (fun n c => n * 10 + (c.toNat - 48)) 0

def tokShow : Str := "show".toList
def tokArp : Str := "arp".toList
def tokNoResolve : Str := "no-resolve".toList
def tokPipe : Str := "|".toList
def tokNoMore : Str := "no-more".toList
def tokVrrp : Str := "vrrp".toList
def tokSummary : Str := "summary".toList
def tokRsvp : Str := "rsvp".toList
def tokSession : Str := "session".toList
def tokTotal : Str := "Total".toList
def tokEntriesColon : Str := "entries:".toList
def tokDot : Str := ".".toList
def tokTotalEntriesCS : Str := "Total entries:".toList
def tokInterfaceCS : Str := "Interface".toList
def tokIngressRsvpCS : Str := "Ingress RSVP:".toList
def tokEgressRsvpCS : Str := "Egress RSVP:".toList
def tokTransitRsvpCS : Str := "Transit RSVP:".toList
def tokIngressLspCS : Str := "Ingress LSP:".toList
def tokEgressLspCS : Str := "Egress LSP:".toList
def tokTransitLspCS : Str := "Transit LSP:".toList
def tokSessionCS : Str := "session".toList
def tokToCS : Str := "To".toList
def tokFromCS : Str := "From".toList
def tokStateCS : Str := "State".toList
def tokDisplayedCS : Str := "displayed,".toList
def tokUpCS : Str := "Up".toList
def tokCommaCS : Str := ",".toList
def tokDownCS : Str := "Down".toList
def tokIngressTy : Str := "Ingress".toList
def tokEgressTy : Str := "Egress".toList
def tokTransitTy : Str := "Transit".toList
def tokGreen : Str := "green".toList
def tokRed : Str := "red".toList
def tokDeleted : Str := "deleted".toList
def tokAdded : Str := "added".toList
def tokNoneWord : Str := "none".toList
def errTypeError : String := "TypeError: expected string or bytes-like object"
def errAttributeError : String := "AttributeError: NoneType object has no attribute split"

/-- `show\s+arp\s+no-resolve\s*\|\s*no-more` (IGNORECASE). -/
def cmdArp : M :=
  pSeq (litCI tokShow) (pSeq wsPlus (pSeq (litCI tokArp) (pSeq wsPlus
    (pSeq (litCI tokNoResolve) (pSeq wsStar (pSeq (litCS tokPipe)
      (pSeq wsStar (litCI tokNoMore))))))))

/-- `show\s+vrrp\s+summary\s*\|\s*no-more` (IGNORECASE). -/
def cmdVrrp : M :=
  pSeq (litCI tokShow) (pSeq wsPlus (pSeq (litCI tokVrrp) (pSeq wsPlus
    (pSeq (litCI tokSummary) (pSeq wsStar (pSeq (litCS tokPipe)
      (pSeq wsStar (litCI tokNoMore))))))))

/-- `show\s+rsvp\s+session\s*\|\s*no-more` (IGNORECASE). -/
def cmdRsvp6 : M :=
  pSeq (litCI tokShow) (pSeq wsPlus (pSeq (litCI tokRsvp) (pSeq wsPlus
    (pSeq (litCI tokSession) (pSeq wsStar (pSeq (litCS tokPipe)
      (pSeq wsStar (litCI tokNoMore))))))))

/-- `show\s+rsvp\s+session\s*$` (IGNORECASE, MULTILINE): the bare command,
anchored to end of line. -/
def cmdBare19 : M :=
  pSeq (litCI tokShow) (pSeq wsPlus (pSeq (litCI tokRsvp)
    (pSeq wsPlus (pSeq (litCI tokSession) eolWs))))

/-- `Total\s+entries:\s*\d+` (IGNORECASE), the end delimiter of
`extract_show_arp_output_1`. -/
def totalPatCI : M :=
  pSeq (litCI tokTotal) (pSeq wsPlus (pSeq (litCI tokEntriesColon)
    (pSeq wsStar digitsPlus)))

/-- Does `\S+@\S+>` match inside the leading non-space token after its
first character: some `@` (preceded by at least one token character)
followed by at least one character and a later `>`. -/
def promptTokAux : Str → Bool
  | [] => false
  | c :: tl => (c = '@' && (tl.drop 1).contains '>') || promptTokAux tl

/-- Does the prompt pattern `\S+@\S+>` match at the start of `s`? -/
def promptHead (s : Str) : Bool :=
  match s.takeWhile (fun c => !(isPySpace c)) with
  | [] => false
  | _ :: t1 => promptTokAux t1

/-- The lazy `(.*?)(?=^\S+@\S+>|\Z)` tail: walk forward and stop at the
first line start (position right after a newline) where the prompt
pattern matches; consume to end of input when no prompt follows.
Returns (consumed text, rest starting at the prompt). -/
def splitPrompt : Str → Str × Str
  | [] => ([], [])
  | c :: tl =>
    if c = '\n' && promptHead tl then ([c], tl)
    else
      let p := splitPrompt tl
      (c :: p.1, p.2)

/-- `re.search`: try the matcher at every position, left to right.
Returns (skipped prefix, consumed match, rest). -/
def findMatchPre (m : M) : Str → Option (Str × Str × Str)
  | [] => (m []).map (fun cr => (([] : Str), cr.1, cr.2))
  | s@(c :: tl) =>
    match m s with
    | some (co, r) => some ([], co, r)
    | none => (findMatchPre m tl).map (fun pcr => (c :: pcr.1, pcr.2.1, pcr.2.2))

/-- The shared post-processing of extractors 2-22:
`match.group(0).strip()`, then `rsplit("\n", 1)[0]`, then drop the first
(command) line and strip; `None` when at most one line remains. -/
def stripRsplitBody (g0 : Str) : Option Str :=
  let out := rsplitDropLast (pyStrip g0)
  let ls := splitNl out
  if 1 < ls.length then some (pyStrip (joinNl (ls.drop 1))) else none

/-- The common shape of the `| no-more` extractors: search the command
pattern, span lazily to the next prompt line (or end), post-process. -/
def stdExtract (m : M) (t : Str) : Option Str :=
  match findMatchPre m t with
  | none => none
  | some (_, co, r) => stripRsplitBody (co ++ (splitPrompt r).1)

/-- `extract_show_vrrp_summary_output_2` from `command_segmenter.py`. -/
def extract_show_vrrp_summary_output_2 (t : Str) : Option Str := stdExtract cmdVrrp t

/-- `extract_show_rsvp_session_output_6` from `command_segmenter.py`. -/
def extract_show_rsvp_session_output_6 (t : Str) : Option Str := stdExtract cmdRsvp6 t

/-- `extract_show_rsvp_session_first_output_19` from
`command_segmenter.py`: the bare command, end-of-line anchored. -/
def extract_show_rsvp_session_first_output_19 (t : Str) : Option Str :=
  stdExtract cmdBare19 t

/-- Post-processing of `extract_show_arp_output_1`: `group(0).strip()`,
drop the command line, join and strip (this extractor has no `rsplit`). -/
def arpBody (g0 : Str) : Str :=
  pyStrip (joinNl ((splitNl (pyStrip g0)).drop 1))

/-- The `re.search` scan of `extract_show_arp_output_1`: at each start
position try the command pattern and, after it, the first
`Total\s+entries:\s*\d+`; a command position with no following total
line is skipped, as the engine then resumes at the next start position.
Returns (command match, middle text, total-line match). -/
def arpScan : Str → Option (Str × Str × Str)
  | [] => none
  | s@(_ :: tl) =>
    match cmdArp s with
    | some (co, r) =>
      match findMatchPre totalPatCI r with
      | some (p, tc, _) => some (co, p, tc)
      | none => arpScan tl
    | none => arpScan tl

/-- `extract_show_arp_output_1` from `command_segmenter.py`. -/
def extract_show_arp_output_1 (t : Str) : Option Str :=
  (arpScan t).map (fun x => arpBody (x.1 ++ x.2.1 ++ x.2.2))

/-- In `extract_show_rsvp_session_second_output_20` the prompt search runs
on the slice after the match end, whose position 0 also counts as a line
start for `^` (that slice always begins with a newline or is empty, since
`\s*$` leaves the position at end of line). -/
def promptSplitSlice (r : Str) : Str × Str :=
  if promptHead r then ([], r) else splitPrompt r

/-- `re.finditer` loop of `extract_show_rsvp_session_second_output_20`:
successive non-overlapping matches, each post-processed like the others
(`None` entries are kept in the list).  The fuel is an upper bound on the
number of matches; every match consumes at least the literal
`show rsvp session`, so `t.length + 1` rounds always suffice. -/
def finditerAux (m : M) : Nat → Str → List (Option Str)
  | 0, _ => []
  | Nat.succ fuel, s =>
    match findMatchPre m s with
    | none => []
    | some (_, co, r) =>
      stripRsplitBody (co ++ (promptSplitSlice r).1) :: finditerAux m fuel r

/-- `extract_show_rsvp_session_second_output_20` from
`command_segmenter.py`: returns `matches[1]` when at least two matches
exist, otherwise `None`. -/
def extract_show_rsvp_session_second_output_20 (t : Str) : Option Str :=
  match finditerAux cmdBare19 (t.length + 1) t with
  | _ :: second :: _ => second
  | _ => none

/-! ### Data model (`mx80_models.py`) -/

structure ShowArpNoResolveEntry where
  mac_address : Str
  ip_address : Str
  interface : Str
  flags : Str
deriving DecidableEq, Repr

structure ShowArpNoResolve where
  entries : List ShowArpNoResolveEntry := []
  total_entries : Nat := 0
deriving DecidableEq, Repr

structure ShowVrrpSummaryAddress where
  type : Str
  address : Str
deriving DecidableEq, Repr

structure ShowVrrpSummaryEntry where
  interface : Str
  state : Str
  group : Nat
  vr_state : Str
  vr_mode : Str
  addresses : List ShowVrrpSummaryAddress := []
deriving DecidableEq, Repr

structure ShowVrrpSummary where
  entries : List ShowVrrpSummaryEntry := []
deriving DecidableEq, Repr

structure ShowRsvpSessionEntry where
  /-- field `to` of the source (`to` is reserved in Lean) -/
  to_ : Str
  from_addr : Str
  state : Str
  rt : Str
  style : Str
  labelin : Str
  labelout : Str
  lspname : Str
deriving DecidableEq, Repr

structure ShowRsvpSessionSection where
  section_type : Str
  total_sessions : Nat
  entries : List ShowRsvpSessionEntry := []
  total_displayed : Nat := 0
  total_up : Nat := 0
  total_down : Nat := 0
deriving DecidableEq, Repr

structure ShowRsvpSession where
  ingress : Option ShowRsvpSessionSection := none
  egress : Option ShowRsvpSessionSection := none
  transit : Option ShowRsvpSessionSection := none
deriving DecidableEq, Repr

structure ShowMplsLspEntry where
  /-- field `to` of the source (`to` is reserved in Lean) -/
  to_ : Str
  from_addr : Str
  state : Str
  rt : Str
  p : Str
  active_path : Str
  style : Str := []
  labelin : Str := []
  labelout : Str := []
  lspname : Str := []
deriving DecidableEq, Repr

structure ShowMplsLspSection where
  section_type : Str
  total_sessions : Nat
  entries : List ShowMplsLspEntry := []
  total_displayed : Nat := 0
  total_up : Nat := 0
  total_down : Nat := 0
deriving DecidableEq, Repr

structure ShowMplsLsp where
  ingress : Option ShowMplsLspSection := none
  egress : Option ShowMplsLspSection := none
  transit : Option ShowMplsLspSection := none
deriving DecidableEq, Repr

/-! ### `_parse_show_arp_no_resolve_regex` -/

/-- Consume `n` whitespace-separated `\\S+` tokens (`(\\S+)` groups with
`\\s+` between them).  Each group is followed either by `\\s+` or by the
next forced element, so it can only match the full whitespace-delimited
token. -/
def tokSeq : Nat → Str → Option (List Str × Str)
  | 0, s => some ([], s)
  | 1, s => (nonWsPlus s).map (fun p => ([p.1], p.2))
  | Nat.succ (Nat.succ n), s =>
    match nonWsPlus s with
    | none => none
    | some (t, r) =>
      match wsPlus r with
      | none => none
      | some (_, r2) =>
        match tokSeq (Nat.succ n) r2 with
        | none => none
        | some (ts, r3) => some (t :: ts, r3)

/-- Split on a character (used for the dotted-quad shape test). -/
def splitDot : Str → List Str
  | [] => [[]]
  | c :: tl =>
    match splitDot tl with
    | [] => [[c]]
    | h :: t => if c = '.' then [] :: h :: t else (c :: h) :: t

/-- Does `\\d+\\.\\d+\\.\\d+\\.\\d+` followed by `\\s+` match the whole
token `t`?  Equivalent: `t` splits on dots into exactly four nonempty
digit runs. -/
def isIp4 (t : Str) : Bool :=
  match splitDot t with
  | [a, b, c, d] =>
    !a.isEmpty && a.all Char.isDigit && !b.isEmpty && b.all Char.isDigit &&
    !c.isEmpty && c.all Char.isDigit && !d.isEmpty && d.all Char.isDigit
  | _ => false

/-- Character class `[0-9a-f:]` under `re.IGNORECASE`. -/
def isHexColon (c : Char) : Bool :=
  c.isDigit || ('a' ≤ lowc c && lowc c ≤ 'f') || c = ':'

/-- `re.match(r'^([0-9a-f:]+)\s+(\d+\.\d+\.\d+\.\d+)\s+(\S+)\s+(\S+)',
line.strip(), re.IGNORECASE)`: the first group, being followed by `\s+`,
must be the whole first token (all in the class `[0-9a-f:]`), the second
the whole second token (a dotted quad); trailing text after the fourth
capture is ignored. -/
def arpEntryMatch (l : Str) : Option ShowArpNoResolveEntry :=
  match tokSeq 4 l with
  | some ([mac, ip, ifc, flg], _) =>
    if !mac.isEmpty && mac.all isHexColon && isIp4 ip then
      some ⟨mac, ip, ifc, flg⟩
    else none
  | _ => none

/-- `re.search(r'Total entries:\s*(\d+)', s)` at one position
(case-sensitive, single literal space): the captured number. -/
def totalCapture (s : Str) : Option Nat := do
  let (_, r1) ← litCS tokTotalEntriesCS s
  let (_, r2) ← wsStar r1
  let (d, _) ← digitsPlus r2
  pure (digitsVal d)

/-- `re.search` scan for `totalCapture`. -/
def findTotalCS : Str → Option Nat
  | [] => none
  | s@(_ :: tl) =>
    match totalCapture s with
    | some n => some n
    | none => findTotalCS tl

/-- `_parse_show_arp_no_resolve_regex` from `mx80_parser_engine.py`:
the total comes from the transcript's `Total entries:` line when present,
the entries from the per-line table pattern; a zero total is replaced by
the entry count. -/
def parse_show_arp_no_resolve_regex (s : Str) : ShowArpNoResolve :=
  let t0 := (findTotalCS s).getD 0
  let entries := (splitNl s).filterMap (fun l => arpEntryMatch (pyStrip l))
  { entries := entries
    total_entries := if t0 = 0 then entries.length else t0 }

/-- `parse_show_arp_no_resolve`: the Genie primary parser is an external
collaborator (spec §1/§4.3 make the regex parser the deterministic
reference); its failure falls through to the regex parser.  On a `None`
segment the fallback runs `re.search(pattern, None)`, which raises
`TypeError`, modelled as `.error`. -/
def parse_show_arp_no_resolve : Option Str → Except String ShowArpNoResolve
  | none => .error errTypeError
  | some s => .ok (parse_show_arp_no_resolve_regex s)

/-! ### `_parse_show_vrrp_summary_regex` -/

/-- `re.match(r'^(\S+)\s+(\S+)\s+(\d+)\s+(\S+)\s+(\S+)\s+(\S+)\s+(\S+)',
line)` on the stripped line: seven whole tokens (the `(\d+)` group,
followed by `\s+`, must be an all-digit token); builds an entry whose
address list holds the one address from groups 6 and 7. -/
def vrrpMainMatch (l : Str) : Option ShowVrrpSummaryEntry :=
  match tokSeq 7 l with
  | some ([g1, g2, g3, g4, g5, g6, g7], _) =>
    if !g3.isEmpty && g3.all Char.isDigit then
      some { interface := g1, state := g2, group := digitsVal g3,
             vr_state := g4, vr_mode := g5, addresses := [⟨g6, g7⟩] }
    else none
  | _ => none

/-- The continuation pattern `re.match(r'^\s+(\S+)\s+(\S+)$', line)`:
requires leading whitespace, two tokens, end of line. -/
def vrrpContMatch (l : Str) : Option (Str × Str) := do
  let (_, r) ← wsPlus l
  let (g1, r) ← nonWsPlus r
  let (_, r) ← wsPlus r
  let (g2, r) ← nonWsPlus r
  if r.isEmpty then pure (g1, g2) else none

/-- One line of the VRRP scan loop: skip blank and `Interface` header
lines; a main match closes the open entry and opens a new one; otherwise
a continuation match with an open entry appends an address. -/
def vrrpStep (st : Option ShowVrrpSummaryEntry × List ShowVrrpSummaryEntry)
    (line : Str) : Option ShowVrrpSummaryEntry × List ShowVrrpSummaryEntry :=
  let l := pyStrip line
  if l.isEmpty || startsWithCS tokInterfaceCS l then st
  else
    match vrrpMainMatch l with
    | some e =>
      match st.1 with
      | some prev => (some e, st.2 ++ [prev])
      | none => (some e, st.2)
    | none =>
      match vrrpContMatch l, st.1 with
      | some (a, b), some cur =>
        (some { cur with addresses := cur.addresses ++ [⟨a, b⟩] }, st.2)
      | _, _ => st

/-- `_parse_show_vrrp_summary_regex` from `mx80_parser_engine.py`. -/
def parse_show_vrrp_summary_regex (s : Str) : ShowVrrpSummary :=
  let st := (splitNl s).foldl vrrpStep (none, [])
  { entries :=
      match st.1 with
      | some e => st.2 ++ [e]
      | none => st.2 }

/-- `parse_show_vrrp_summary`: calls the regex parser directly; on a
`None` segment `None.split('\n')` raises `AttributeError`. -/
def parse_show_vrrp_summary : Option Str → Except String ShowVrrpSummary
  | none => .error errAttributeError
  | some s => .ok (parse_show_vrrp_summary_regex s)

/-! ### `_parse_show_rsvp_session_regex` -/

/-- `<kw>\s+(\d+)\s+sessions?` at one position (case-sensitive `re.search`
fragment); the optional trailing `s` never affects success. -/
def sectionHdrCapture (kw : Str) (s : Str) : Option Nat := do
  let (_, r) ← litCS kw s
  let (_, r) ← wsPlus r
  let (d, r) ← digitsPlus r
  let (_, r) ← wsPlus r
  let (_, _) ← litCS tokSessionCS r
  pure (digitsVal d)

/-- Generic `re.search`: try a capturing recogniser at every position. -/
def reSearch {α : Type} (f : Str → Option α) : Str → Option α
  | [] => f []
  | s@(_ :: tl) =>
    match f s with
    | some x => some x
    | none => reSearch f tl

/-- `Total\s+(\d+)\s+displayed,\s+Up\s+(\d+),\s+Down\s+(\d+)` at one
position, split in two halves (`Up\s+(\d+),\s+Down\s+(\d+)` handled by
the tail helper above it). -/
def summaryCaptureTail (r : Str) : Option (Nat × Nat) := do
  let (_, r) ← litCS tokUpCS r
  let (_, r) ← wsPlus r
  let (d2, r) ← digitsPlus r
  let (_, r) ← litCS tokCommaCS r
  let (_, r) ← wsPlus r
  let (_, r) ← litCS tokDownCS r
  let (_, r) ← wsPlus r
  let (d3, _) ← digitsPlus r
  pure (digitsVal d2, digitsVal d3)

def summaryCapture (s : Str) : Option (Nat × Nat × Nat) := do
  let (_, r) ← litCS tokTotal s
  let (_, r) ← wsPlus r
  let (d1, r) ← digitsPlus r
  let (_, r) ← wsPlus r
  let (_, r) ← litCS tokDisplayedCS r
  let (_, r) ← wsPlus r
  let (du, dd) ← summaryCaptureTail r
  pure (digitsVal d1, du, dd)

/-- `re.match(r'^(\S+)\s+(\S+)\s+(\S+)\s+(\S+)\s+(\S+)\s+(\S+)\s+(\S+)\s+(\S+.*)$', ...)`
of the RSVP entry: seven whole tokens, whitespace, then group 8
(`\S+.*` up to end of line) is the whole remainder, which must start
with a non-space character.  The source builds `style` from groups 5 and
6, reads `labelin`/`labelout` from groups 7 and 8, and its
`match.group(9)` guard (`len(match.groups()) >= 9`, false for this
8-group pattern) leaves `lspname` empty. -/
def rsvpEntryMatch (l : Str) : Option ShowRsvpSessionEntry :=
  match tokSeq 7 l with
  | some ([g1, g2, g3, g4, g5, g6, g7], r) =>
    match wsPlus r with
    | none => none
    | some (_, r2) =>
      match r2 with
      | [] => none
      | c :: _ =>
        if isPySpace c then none
        else
          some { to_ := g1, from_addr := g2, state := g3, rt := g4,
                 style := g5 ++ ' ' :: g6, labelin := g7, labelout := r2,
                 lspname := [] }
  | _ => none

inductive SecTag | ing | eg | tr
deriving DecidableEq, Repr

/-- The mutable scan state of the RSVP session parser: the three section
slots of the result plus which slot `current_section` aliases. -/
structure RsvpSt where
  ingress : Option ShowRsvpSessionSection := none
  egress : Option ShowRsvpSessionSection := none
  transit : Option ShowRsvpSessionSection := none
  cur : Option SecTag := none
deriving DecidableEq, Repr

def rsvpGetCur (st : RsvpSt) : Option ShowRsvpSessionSection :=
  match st.cur with
  | some .ing => st.ingress
  | some .eg => st.egress
  | some .tr => st.transit
  | none => none

def rsvpSetCur (st : RsvpSt) (sec : ShowRsvpSessionSection) : RsvpSt :=
  match st.cur with
  | some .ing => { st with ingress := some sec }
  | some .eg => { st with egress := some sec }
  | some .tr => { st with transit := some sec }
  | none => st

def mkRsvpSec (ty : Str) (n : Nat) : ShowRsvpSessionSection :=
  { section_type := ty, total_sessions := n }

/-- One line of the RSVP session scan loop, in the source's order: blank
skip, the three section headers, the `To`/`From`/`State` header skip, the
summary line (only with an open section), the entry pattern (only with an
open section). -/
def rsvpStep (st : RsvpSt) (line : Str) : RsvpSt :=
  let l := pyStrip line
  if l.isEmpty then st
  else
    match reSearch (sectionHdrCapture tokIngressRsvpCS) l with
    | some n => { st with ingress := some (mkRsvpSec tokIngressTy n), cur := some .ing }
    | none =>
    match reSearch (sectionHdrCapture tokEgressRsvpCS) l with
    | some n => { st with egress := some (mkRsvpSec tokEgressTy n), cur := some .eg }
    | none =>
    match reSearch (sectionHdrCapture tokTransitRsvpCS) l with
    | some n => { st with transit := some (mkRsvpSec tokTransitTy n), cur := some .tr }
    | none =>
    if containsCS tokToCS l && containsCS tokFromCS l && containsCS tokStateCS l then st
    else
      match reSearch summaryCapture l, rsvpGetCur st with
      | some (d, u, w), some sec =>
        rsvpSetCur st { sec with total_displayed := d, total_up := u, total_down := w }
      | _, _ =>
        match rsvpEntryMatch l, rsvpGetCur st with
        | some e, some sec => rsvpSetCur st { sec with entries := sec.entries ++ [e] }
        | _, _ => st

/-- `_parse_show_rsvp_session_regex` from `mx80_parser_engine.py`. -/
def parse_show_rsvp_session_regex (s : Str) : ShowRsvpSession :=
  let st := (splitNl s).foldl rsvpStep {}
  { ingress := st.ingress, egress := st.egress, transit := st.transit }

/-- `parse_show_rsvp_session`: calls the regex parser directly; on a
`None` segment `None.split('\n')` raises `AttributeError`. -/
def parse_show_rsvp_session : Option Str → Except String ShowRsvpSession
  | none => .error errAttributeError
  | some s => .ok (parse_show_rsvp_session_regex s)

/-! ### `_parse_show_mpls_lsp_regex` -/

/-- The tail `\s+(\S*)\s+(.+)$` of the MPLS ingress entry pattern, applied
to stripped (hence non-whitespace-terminated) lines.  The engine prefers
the maximal whitespace run and the maximal `\S*`; when no whitespace
follows that token the only remaining alternative is an empty `\S*`
placed inside a leading whitespace run of length at least two.  (The
branches returning `none` after a successful inner `wsPlus` with empty
rest, or with no token at all, correspond to a line ending in whitespace
and cannot arise for stripped input.) -/
def mplsIngTail (r : Str) : Option (Str × Str) := do
  let (w, r1) ← wsPlus r
  match nonWsPlus r1 with
  | none => none
  | some (g6, r2) =>
    match wsPlus r2 with
    | some (_, r3) => if r3.isEmpty then none else pure (g6, r3)
    | none => if 2 ≤ w.length then pure (([] : Str), r1) else none

/-- `re.match(r'^(\S+)\s+(\S+)\s+(\S+)\s+(\S+)\s+(\S+)\s+(\S*)\s+(.+)$', ...)`
of the MPLS ingress entry. -/
def mplsIngressEntryMatch (l : Str) : Option ShowMplsLspEntry :=
  match tokSeq 5 l with
  | some ([g1, g2, g3, g4, g5], r) =>
    match mplsIngTail r with
    | none => none
    | some (g6, g7) =>
      some { to_ := g1, from_addr := g2, state := g3, rt := g4, p := g5,
             active_path := g6, lspname := pyStrip g7 }
  | _ => none

/-- `re.match(r'^(\S+)\s+(\S+)\s+(\S+)\s+(\S+)\s+(\S+)\s+(\S+)\s+(\S+)\s+(\S+)\s+(.+)$', ...)`
of the MPLS egress/transit entry: eight whole tokens, then group 9
(`(.+)$`, greedy, newline-free lines) takes the rest of the line, which a
whitespace run must separate from the eighth token. -/
def mplsEgEntryMatch (l : Str) : Option ShowMplsLspEntry :=
  match tokSeq 8 l with
  | some ([g1, g2, g3, g4, g5, g6, g7, g8], r) =>
    match wsPlus r with
    | none => none
    | some (_, r2) =>
      if r2.isEmpty then none
      else
        some { to_ := g1, from_addr := g2, state := g3, rt := g4, p := [],
               active_path := [], style := g5 ++ ' ' :: g6, labelin := g7,
               labelout := g8, lspname := pyStrip r2 }
  | _ => none

/-- Scan state of the MPLS LSP parser (the three slots plus the alias tag
`current_section_type`). -/
structure MplsSt where
  ingress : Option ShowMplsLspSection := none
  egress : Option ShowMplsLspSection := none
  transit : Option ShowMplsLspSection := none
  cur : Option SecTag := none
deriving DecidableEq, Repr

def mplsGetCur (st : MplsSt) : Option ShowMplsLspSection :=
  match st.cur with
  | some .ing => st.ingress
  | some .eg => st.egress
  | some .tr => st.transit
  | none => none

def mplsSetCur (st : MplsSt) (sec : ShowMplsLspSection) : MplsSt :=
  match st.cur with
  | some .ing => { st with ingress := some sec }
  | some .eg => { st with egress := some sec }
  | some .tr => { st with transit := some sec }
  | none => st

def mkMplsSec (ty : Str) (n : Nat) : ShowMplsLspSection :=
  { section_type := ty, total_sessions := n }

/-- One line of the MPLS LSP scan loop, in the source's order: blank
skip, the three `... LSP:` section headers, the `To`/`From` header skip,
the summary line, then the section-type-dependent entry pattern. -/
def mplsStep (st : MplsSt) (line : Str) : MplsSt :=
  let l := pyStrip line
  if l.isEmpty then st
  else
    match reSearch (sectionHdrCapture tokIngressLspCS) l with
    | some n => { st with ingress := some (mkMplsSec tokIngressTy n), cur := some .ing }
    | none =>
    match reSearch (sectionHdrCapture tokEgressLspCS) l with
    | some n => { st with egress := some (mkMplsSec tokEgressTy n), cur := some .eg }
    | none =>
    match reSearch (sectionHdrCapture tokTransitLspCS) l with
    | some n => { st with transit := some (mkMplsSec tokTransitTy n), cur := some .tr }
    | none =>
    if containsCS tokToCS l && containsCS tokFromCS l then st
    else
      match reSearch summaryCapture l, mplsGetCur st with
      | some (d, u, w), some sec =>
        mplsSetCur st { sec with total_displayed := d, total_up := u, total_down := w }
      | _, _ =>
        match mplsGetCur st with
        | some sec =>
          match (if st.cur = some SecTag.ing then mplsIngressEntryMatch l
                 else mplsEgEntryMatch l) with
          | some e => mplsSetCur st { sec with entries := sec.entries ++ [e] }
          | none => st
        | none => st

/-- `_parse_show_mpls_lsp_regex` from `mx80_parser_engine.py`. -/
def parse_show_mpls_lsp_regex (s : Str) : ShowMplsLsp :=
  let st := (splitNl s).foldl mplsStep {}
  { ingress := st.ingress, egress := st.egress, transit := st.transit }

/-- `parse_show_mpls_lsp`: calls the regex parser directly; on a `None`
segment `None.split('\n')` raises `AttributeError`. -/
def parse_show_mpls_lsp : Option Str → Except String ShowMplsLsp
  | none => .error errAttributeError
  | some s => .ok (parse_show_mpls_lsp_regex s)

/-! ### The guarded wrappers of commands 17-22 -/

/-- The guard shared by the parsers of commands 17-22:
`not cli_output or cli_output.strip() == "" or
cli_output.strip().lower() == "none"`. -/
def noneGuard (s : Str) : Bool :=
  s.isEmpty || (pyStrip s).isEmpty || (pyStrip s).map lowc = tokNoneWord

/-- `parse_show_rsvp_session_match_dn` (command 17). -/
def parse_show_rsvp_session_match_dn : Option Str → ShowRsvpSession
  | none => {}
  | some s => if noneGuard s then {} else parse_show_rsvp_session_regex s

/-- `parse_show_mpls_lsp_unidirectional_match_dn` (command 18). -/
def parse_show_mpls_lsp_unidirectional_match_dn : Option Str → ShowMplsLsp
  | none => {}
  | some s => if noneGuard s then {} else parse_show_mpls_lsp_regex s

/-- `parse_show_rsvp_session_first` (command 19). -/
def parse_show_rsvp_session_first : Option Str → ShowRsvpSession
  | none => {}
  | some s => if noneGuard s then {} else parse_show_rsvp_session_regex s

/-- `parse_show_rsvp_session_second` (command 20). -/
def parse_show_rsvp_session_second : Option Str → ShowRsvpSession
  | none => {}
  | some s => if noneGuard s then {} else parse_show_rsvp_session_regex s

/-- `parse_show_rsvp_session_ma` (command 21). -/
def parse_show_rsvp_session_ma : Option Str → ShowRsvpSession
  | none => {}
  | some s => if noneGuard s then {} else parse_show_rsvp_session_regex s

/-- `parse_show_mpls_lsp_unidirectional` (command 22). -/
def parse_show_mpls_lsp_unidirectional : Option Str → ShowMplsLsp
  | none => {}
  | some s => if noneGuard s then {} else parse_show_mpls_lsp_regex s

/-! ### The diff engine (`network_config_comparator.py`) -/

/-- `compare_values`: `"green"` on equality, `"red"` otherwise. -/
def compare_values (a b : Str) : Str := if a == b then tokGreen else tokRed

/-- One Python `dict` insertion `m[k] = v`: overwrite in place when the
key exists, append otherwise. -/
def dinsert (m : List (Str × ShowArpNoResolveEntry)) (k : Str)
    (v : ShowArpNoResolveEntry) : List (Str × ShowArpNoResolveEntry) :=
  if m.any (fun p => p.1 == k) then m.map (fun p => if p.1 == k then (k, v) else p)
  else m ++ [(k, v)]

/-- `{entry['ip_address']: entry for entry in entries}`: a dict built by
successive insertion, so a repeated key keeps the later entry. -/
def buildArpDict (entries : List ShowArpNoResolveEntry) :
    List (Str × ShowArpNoResolveEntry) :=
  entries.foldl (fun m e => dinsert m e.ip_address e) []

/-- `dict.get`. -/
def dget (m : List (Str × ShowArpNoResolveEntry)) (k : Str) :
    Option ShowArpNoResolveEntry :=
  (m.find? (fun p => p.1 == k)).map Prod.snd

/-- Python string `<` (code-point lexicographic). -/
def strLt : Str → Str → Bool
  | [], [] => false
  | [], _ :: _ => true
  | _ :: _, [] => false
  | a :: as_, b :: bs => a.toNat < b.toNat || (a = b && strLt as_ bs)

def sortInsert (x : Str) : List Str → List Str
  | [] => [x]
  | y :: tl => if strLt x y then x :: y :: tl else y :: sortInsert x tl

/-- `sorted(...)` on distinct keys: insertion sort under `strLt`. -/
def sortStr (l : List Str) : List Str := l.foldr sortInsert []

/-- `sorted(set(pre_dict) | set(post_dict))`. -/
def arpAllIps (pre post : List ShowArpNoResolveEntry) : List Str :=
  sortStr (((buildArpDict pre).map Prod.fst ++ (buildArpDict post).map Prod.fst).dedup)

/-- One comparison row of `compare_arp_entries` (field name → colour,
plus the optional `status` tag of one-sided keys). -/
structure ArpCompEntry where
  ip_address : Str
  mac_address : Str
  interface : Str
  flags : Str
  status : Option Str := none
deriving DecidableEq, Repr

/-- The body of the `compare_arp_entries` loop for one key. -/
def arpCompareAt (pre post : List ShowArpNoResolveEntry) (ip : Str) : ArpCompEntry :=
  match dget (buildArpDict pre) ip, dget (buildArpDict post) ip with
  | some pe, some qe =>
    { ip_address := compare_values pe.ip_address qe.ip_address,
      mac_address := compare_values pe.mac_address qe.mac_address,
      interface := compare_values pe.interface qe.interface,
      flags := compare_values pe.flags qe.flags }
  | some _, none =>
    { ip_address := tokRed, mac_address := tokRed, interface := tokRed,
      flags := tokRed, status := some tokDeleted }
  | none, _ =>
    { ip_address := tokRed, mac_address := tokRed, interface := tokRed,
      flags := tokRed, status := some tokAdded }

/-- `compare_arp_entries` from `network_config_comparator.py`: index both
sides by IP, walk the sorted union of keys, and emit one row per key
(present-both: field-by-field colours; pre-only: all red, "deleted";
otherwise: all red, "added"). -/
def compare_arp_entries (pre post : List ShowArpNoResolveEntry) : List ArpCompEntry :=
  (arpAllIps pre post).map (fun ip =>
    match dget (buildArpDict pre) ip, dget (buildArpDict post) ip with
    | some pe, some qe =>
      { ip_address := compare_values pe.ip_address qe.ip_address,
        mac_address := compare_values pe.mac_address qe.mac_address,
        interface := compare_values pe.interface qe.interface,
        flags := compare_values pe.flags qe.flags }
    | some _, none =>
      { ip_address := tokRed, mac_address := tokRed, interface := tokRed,
        flags := tokRed, status := some tokDeleted }
    | none, _ =>
      { ip_address := tokRed, mac_address := tokRed, interface := tokRed,
        flags := tokRed, status := some tokAdded })

/-- Plain nested data (JSON-like), the shape `determine_overall_color`
walks. -/
inductive JValue
  | str (v : Str)
  | int (v : Int)
  | arr (xs : List JValue)
  | obj (kvs : List (Str × JValue))

mutual
/-- `determine_overall_color` from `network_config_comparator.py`: on a
dict or list, `"red"` as soon as some value is the string `"red"` or a
nested container rolls up to `"red"`, else `"green"`; a bare string is
returned as is, any other scalar falls through to `"green"`. -/
def determine_overall_color : JValue → Str
  | .str v => v
  | .int _ => tokGreen
  | .arr xs => if detListHasRed xs then tokRed else tokGreen
  | .obj kvs => if detObjHasRed kvs then tokRed else tokGreen

/-- The per-value test of the `determine_overall_color` loops: a string
value equal to `"red"`, or a container `v` with
`determine_overall_color v == "red"` — which by the container equations
of `determine_overall_color` is exactly `detListHasRed`/`detObjHasRed`
of its children (recorded in `det_container_red`). -/
def detElemRed : JValue → Bool
  | .str v => v == tokRed
  | .int _ => false
  | .arr ys => detListHasRed ys
  | .obj ys => detObjHasRed ys

/-- The list loop of `determine_overall_color`. -/
def detListHasRed : List JValue → Bool
  | [] => false
  | x :: tl => detElemRed x || detListHasRed tl

/-- The dict loop of `determine_overall_color` (values only). -/
def detObjHasRed : List (Str × JValue) → Bool
  | [] => false
  | kv :: tl => detElemRed kv.2 || detObjHasRed tl
end

mutual
/-- The spec's rollup predicate, written from its words: some string leaf
`"red"` (a mismatch tag) occurs anywhere in the tree, reached through
list items and dict values. -/
def containsMismatch : JValue → Bool
  | .str v => v == tokRed
  | .int _ => false
  | .arr xs => cmList xs
  | .obj kvs => cmObj kvs

def cmList : List JValue → Bool
  | [] => false
  | x :: tl => containsMismatch x || cmList tl

def cmObj : List (Str × JValue) → Bool
  | [] => false
  | kv :: tl => containsMismatch kv.2 || cmObj tl
end

/-- Is a `JValue` a dict or a list (the shapes the comparator actually
hands to `determine_overall_color`)? -/
def jIsContainer : JValue → Bool
  | .arr _ => true
  | .obj _ => true
  | _ => false

/-! ### Line predicates and transcript families -/

/-- The first character exists and is not whitespace. -/
def headNonWs : Str → Bool
  | [] => false
  | c :: _ => !isPySpace c

/-- The last character exists and is not whitespace. -/
def lastNonWs : Str → Bool
  | [] => false
  | [c] => !isPySpace c
  | _ :: c :: tl => lastNonWs (c :: tl)

/-- A tidy output line: nonempty, no leading or trailing whitespace, no
embedded newline, and not a prompt line. -/
def cleanLine (l : Str) : Bool :=
  headNonWs l && lastNonWs l && !(l.contains '\n') && !(promptHead l)

/-- Join lines with a newline after each one (the text of a block of
lines inside a larger transcript). -/
def joinNlR (ls : List Str) : Str :=
  ls.foldr (fun l acc => l ++ '\n' :: acc) []

def preTok : Str := "a@b> ".toList
def vrrpCmdTok : Str := "show vrrp summary | no-more".toList
def bare19Tok : Str := "show rsvp session".toList
def rsvp6Tok : Str := "show rsvp session | no-more".toList
def arpCmdTok : Str := "show arp no-resolve | no-more".toList
def promptEndTok : Str := "a@b> exit".toList

/-- A transcript whose first line is a prompt plus the given command,
followed by the body lines, then a prompt line and the rest. -/
def mkStdTranscript (cmd : Str) (body : List Str) (p0rest : Str) : Str :=
  preTok ++ cmd ++ '\n' :: (joinNlR body ++ p0rest)

/-- C7 family, bare command first: `a@b> show rsvp session`, its output
`b1`, then `a@b> show rsvp session | no-more`, its output `b2`, then a
final prompt. -/
def mkBareFirst (b1 b2 : List Str) : Str :=
  preTok ++ bare19Tok ++ '\n' ::
    (joinNlR b1 ++ preTok ++ rsvp6Tok ++ '\n' :: (joinNlR b2 ++ promptEndTok))

/-- C7 family, piped command first. -/
def mkPipedFirst (b1 b2 : List Str) : Str :=
  preTok ++ rsvp6Tok ++ '\n' ::
    (joinNlR b2 ++ preTok ++ bare19Tok ++ '\n' :: (joinNlR b1 ++ promptEndTok))

/-- The body-line constraint of the C7/C8 families: tidy, free of the
word `show` (so no command pattern can begin inside it) and of `|` (so
the piped pattern cannot continue across the preceding newline). -/
def rsvpFamLine (l : Str) : Bool :=
  cleanLine l && !(containsCI tokShow l) && !(l.contains '|')

/-- One simple ARP table row of the C6 family. -/
structure ArpRow where
  mac : Str
  ip : Str
  iface : Str
  flags : Str

/-- Render a row as a single-space-separated table line. -/
def renderArpRow (r : ArpRow) : Str :=
  r.mac ++ ' ' :: (r.ip ++ ' ' :: (r.iface ++ ' ' :: r.flags))

/-- Well-formedness of a C6 row: the MAC token is a nonempty `[0-9a-f:]`
run, the address a dotted quad, interface and flags nonempty, free of
whitespace and of `:` (which rules out a stray `entries:`), and the
rendered line contains no case-insensitive `total` (so the extractor's
end delimiter cannot fire early). -/
def arpRowOk (r : ArpRow) : Bool :=
  !r.mac.isEmpty && r.mac.all isHexColon &&
  isIp4 r.ip &&
  !r.iface.isEmpty && r.iface.all (fun c => !isPySpace c && !(c = ':')) &&
  !r.flags.isEmpty && r.flags.all (fun c => !isPySpace c && !(c = ':')) &&
  !(containsCI tokTotal (renderArpRow r))

def arpHeaderTok : Str :=
  "MAC Address       Address         Interface                Flags".toList
def totalPrefixTok : Str := "Total entries: ".toList

/-- The C6 transcript: prompt+command line, header, `rows` table lines,
`Total entries: d`, final prompt. -/
def mkArpTranscript (rows : List ArpRow) (d : Str) : Str :=
  preTok ++ arpCmdTok ++ '\n' ::
    (joinNlR (arpHeaderTok :: rows.map renderArpRow) ++
      (totalPrefixTok ++ d ++ '\n' :: promptEndTok))

/-- The segment the C6 extraction is expected to produce. -/
def arpSegment (rows : List ArpRow) (d : Str) : Str :=
  joinNl (arpHeaderTok :: rows.map renderArpRow ++ [totalPrefixTok ++ d])

/-! ### Concrete inputs -/

/-- The main line of the VRRP format example in the docstring of
`_parse_show_vrrp_summary_regex`. -/
def vrrpDocMain : Str :=
  "ge-1/1/5.605  up              1   master          Active    lcl    100.70.16.19       ".toList

/-- The continuation line (second address, `vip`) of the same docstring
example. -/
def vrrpDocCont : Str :=
  "                                                                vip    100.70.16.17".toList

/-- The docstring's two-line VRRP block: one record, one continuation. -/
def vrrpDocSeg : Str := joinNl [vrrpDocMain, vrrpDocCont]

/-- The record the code actually produces for `vrrpDocSeg`: a single
address, the continuation line dropped. -/
def vrrpDocEntry : ShowVrrpSummaryEntry :=
  { interface := "ge-1/1/5.605".toList, state := "up".toList, group := 1,
    vr_state := "master".toList, vr_mode := "Active".toList,
    addresses := [⟨"lcl".toList, "100.70.16.19".toList⟩] }

def rsvpHdr2 : Str := "Ingress RSVP: 2 sessions".toList
def rsvpHdr5 : Str := "Ingress RSVP: 5 sessions".toList
def rsvpColHdr : Str :=
  "To              From            State   Rt Style Labelin Labelout LSPname".toList
def rsvpEntryLine1 : Str := "10.1.1.1 10.2.2.2 Up 0 1 FF 100 200 LSPA".toList
def rsvpEntryLine2 : Str := "10.1.1.3 10.2.2.4 Up 0 1 FF 101 201 LSPB".toList
def rsvpTrailer : Str := "Total 2 displayed, Up 2, Down 0".toList

/-- RSVP-session segment: an `Ingress RSVP: 2 sessions` header, the
column header, two primary entry lines, a `Total 2 displayed, Up 2,
Down 0` trailer. -/
def rsvpSeg2 : Str :=
  joinNl [rsvpHdr2, rsvpColHdr, rsvpEntryLine1, rsvpEntryLine2, rsvpTrailer]

/-- The same segment with the header declaring 5 sessions while only two
entry lines follow. -/
def rsvpSeg5 : Str :=
  joinNl [rsvpHdr5, rsvpColHdr, rsvpEntryLine1, rsvpEntryLine2, rsvpTrailer]

/-- The four totals and the record count of a section. -/
def rsvpSecStats (s : ShowRsvpSessionSection) : Nat × Nat × Nat × Nat × Nat :=
  (s.total_sessions, s.total_displayed, s.total_up, s.total_down, s.entries.length)

/-- C2 counterexample: header line of the two-line output block. -/
def c2Hdr : Str := "HeaderLine".toList

/-- C2 counterexample: second (and last, non-blank) line of the block. -/
def c2Entry : Str := "EntryB".toList

/-- C2 counterexample transcript: prompt + piped vrrp command, a two-line
output block, a closing prompt line. -/
def c2Transcript : Str := mkStdTranscript vrrpCmdTok [c2Hdr, c2Entry] promptEndTok

/-- The segment the C2 claim promises on `c2Transcript`: both output
lines. -/
def c2Expected : Str := joinNl [c2Hdr, c2Entry]

/-- A transcript with no occurrence of either rsvp command signature. -/
def c8NoCmd : Str := "Interface Address
ge-0 10.0.0.1
".toList

/-- A transcript with exactly one occurrence of the bare
`show rsvp session` signature. -/
def c8OneBare : Str := "x
show rsvp session
A
B".toList

/-- Prefix skipped by the first bare-pattern match inside `c8OneBare`. -/
def c8P : Str := "x
".toList

/-- Rest of `c8OneBare` after the first bare-pattern match. -/
def c8R : Str := "
A
B".toList

/-- The bare rsvp command line after its first character. -/
def bareTail : Str := "how rsvp session".toList

/-- The piped rsvp command line after its first character. -/
def rsvp6Tail : Str := "how rsvp session | no-more".toList

/-- C7 counterexample transcript: only the bare command occurs, and the
first line of its own output happens to start with `| no-more`. -/
def c7Transcript : Str :=
  "a@b> show rsvp session\n| no-more\nX1\nX2\na@b> exit".toList

/-- The segment both rsvp extractors return on `c7Transcript`. -/
def c7Seg : Str := "| no-more\nX1".toList

/-- C7 witness body lines. -/
def c7L1 : Str := "AAA 1".toList

def c7L2 : Str := "BBB 2".toList

def c7L3 : Str := "CCC 3".toList

def c7L4 : Str := "DDD 4".toList

/-- C6 witness rows. -/
def c6Row1 : ArpRow :=
  { mac := "aa:bb:cc:00:11:22".toList, ip := "10.0.0.1".toList,
    iface := "ge-0/0/0.0".toList, flags := "none".toList }

def c6Row2 : ArpRow :=
  { mac := "aa:bb:cc:00:11:33".toList, ip := "10.0.0.2".toList,
    iface := "ge-0/0/1.0".toList, flags := "none".toList }

/-- C6 witness count, `Total entries: 2`. -/
def c6D : Str := "2".toList

/-! ### Theorems -/

lemma pyLStrip_head {l : Str} {c : Char} {tl : Str}
    (h : pyLStrip l = c :: tl) : isPySpace c = false := by
  induction l with
  | nil => simp [pyLStrip] at h
  | cons a rest ih =>
    by_cases ha : isPySpace a
    · rw [pyLStrip, List.dropWhile_cons_of_pos ha] at h
      exact ih h
    · rw [pyLStrip, List.dropWhile_cons_of_neg ha] at h
      cases h
      simpa using ha

lemma pyRStrip_head {s : Str} {c : Char} {tl : Str}
    (h : pyRStrip s = c :: tl) : ∃ tl', s = c :: tl' := by
  cases s with
  | nil => simp [pyRStrip] at h
  | cons a rest =>
    rw [pyRStrip] at h
    rcases hr : pyRStrip rest with _ | ⟨x, xs⟩
    · rw [hr] at h
      by_cases ha : isPySpace a
      · simp [ha] at h
      · simp [ha] at h
        exact ⟨rest, by rw [h.1]⟩
    · rw [hr] at h
      cases h
      exact ⟨rest, rfl⟩

lemma pyStrip_head_not_space {l : Str} {c : Char} {tl : Str}
    (h : pyStrip l = c :: tl) : isPySpace c = false := by
  rw [pyStrip] at h
  obtain ⟨tl', h'⟩ := pyRStrip_head h
  exact pyLStrip_head h'

/-- The continuation pattern `^\s+(\S+)\s+(\S+)$` can never match a
stripped line: the parser strips each line before testing it, and a
stripped line never starts with whitespace. -/
lemma vrrpContMatch_strip (l : Str) : vrrpContMatch (pyStrip l) = none := by
  cases h : pyStrip l with
  | nil => simp [vrrpContMatch, wsPlus, runPlus]
  | cons c tl =>
    have hc : isPySpace c = false := pyStrip_head_not_space h
    simp [vrrpContMatch, wsPlus, runPlus, List.takeWhile, hc]

lemma vrrpMainMatch_addr {l : Str} {e : ShowVrrpSummaryEntry}
    (h : vrrpMainMatch l = some e) : e.addresses.length = 1 := by
  rw [vrrpMainMatch] at h
  split at h
  · split at h
    · cases h; rfl
    · cases h
  · cases h

lemma vrrpStep_inv {st : Option ShowVrrpSummaryEntry × List ShowVrrpSummaryEntry}
    {line : Str}
    (h1 : st.2.all (fun e => e.addresses.length == 1) = true)
    (h2 : ∀ e, st.1 = some e → e.addresses.length = 1) :
    ((vrrpStep st line).2.all (fun e => e.addresses.length == 1) = true) ∧
    (∀ e, (vrrpStep st line).1 = some e → e.addresses.length = 1) := by
  rw [vrrpStep]
  split
  · exact ⟨h1, h2⟩
  · rcases hm : vrrpMainMatch (pyStrip line) with _ | e
    · rw [vrrpContMatch_strip line]
      dsimp only
      exact ⟨h1, h2⟩
    · have he := vrrpMainMatch_addr hm
      rcases hcur : st.1 with _ | prev
      · dsimp only
        exact ⟨h1, fun e' he' => by cases he'; exact he⟩
      · dsimp only
        refine ⟨?_, fun e' he' => by cases he'; exact he⟩
        rw [List.all_append, h1]
        simp [h2 prev hcur]

lemma vrrpFold_inv (lines : List Str)
    (st : Option ShowVrrpSummaryEntry × List ShowVrrpSummaryEntry)
    (h1 : st.2.all (fun e => e.addresses.length == 1) = true)
    (h2 : ∀ e, st.1 = some e → e.addresses.length = 1) :
    ((lines.foldl vrrpStep st).2.all (fun e => e.addresses.length == 1) = true) ∧
    (∀ e, (lines.foldl vrrpStep st).1 = some e → e.addresses.length = 1) := by
  induction lines generalizing st with
  | nil => exact ⟨h1, h2⟩
  | cons l rest ih =>
    have h := @vrrpStep_inv st l h1 h2
    exact ih (vrrpStep st l) h.1 h.2

/-- C3: the VRRP summary parser strips each line before testing the
indentation-anchored continuation pattern `^\s+(\S+)\s+(\S+)$`, so a
continuation line carrying an additional address is never appended: the
docstring's own two-line example (main line plus `vip` continuation)
parses to a single record holding only the `lcl` address, and in fact
every record any input ever produces has exactly one address.  (The
second half of the claim — a continuation line with no open record is
dropped — holds vacuously.) -/
theorem vrrp_continuation_always_dropped :
    parse_show_vrrp_summary_regex vrrpDocSeg = { entries := [vrrpDocEntry] } ∧
    ∀ s : Str, ((parse_show_vrrp_summary_regex s).entries.all
      (fun e => e.addresses.length == 1)) = true := by
  constructor
  · decide
  · intro s
    rw [parse_show_vrrp_summary_regex]
    have h := vrrpFold_inv (splitNl s) (none, []) (by decide) (by intro e he; cases he)
    rcases hs : ((splitNl s).foldl vrrpStep (none, [])).1 with _ | e
    · simpa [hs] using h.1
    · have he := h.2 e hs
      simp only [hs]
      rw [List.all_append]
      simp [h.1, he]

/-- C4: on an RSVP-session segment with an `Ingress RSVP: 2 sessions`
header, two primary entry lines and a `Total 2 displayed, Up 2, Down 0`
trailer, the parser produces an Ingress section with
`total_sessions = 2`, `total_displayed = 2`, `total_up = 2`,
`total_down = 0` and exactly 2 records (no other sections); and with the
header instead declaring `5 sessions` the stored `total_sessions` is 5
while still exactly 2 records are parsed — the totals are copied from
the transcript's header/summary lines, never recomputed from the record
count. -/
theorem rsvp_totals_taken_verbatim :
    ((parse_show_rsvp_session_regex rsvpSeg2).ingress.map rsvpSecStats
       = some (2, 2, 2, 0, 2)) ∧
    (parse_show_rsvp_session_regex rsvpSeg2).egress = none ∧
    (parse_show_rsvp_session_regex rsvpSeg2).transit = none ∧
    ((parse_show_rsvp_session_regex rsvpSeg5).ingress.map rsvpSecStats
       = some (5, 2, 2, 0, 2)) := by
  refine ⟨by decide, by decide, by decide, by decide⟩

/-- C10: each guarded parser (commands 17-22) returns its zero-value
collection when the segment's content, stripped and lowercased, is the
literal string `"none"`. -/
theorem guarded_parsers_treat_none_as_absent (s : Str)
    (h : (pyStrip s).map lowc = tokNoneWord) :
    parse_show_rsvp_session_match_dn (some s) = {} ∧
    parse_show_mpls_lsp_unidirectional_match_dn (some s) = {} ∧
    parse_show_rsvp_session_first (some s) = {} ∧
    parse_show_rsvp_session_second (some s) = {} ∧
    parse_show_rsvp_session_ma (some s) = {} ∧
    parse_show_mpls_lsp_unidirectional (some s) = {} := by
  have hg : noneGuard s = true := by simp [noneGuard, h, tokNoneWord]
  refine ⟨?_, ?_, ?_, ?_, ?_, ?_⟩ <;>
    simp [parse_show_rsvp_session_match_dn, parse_show_mpls_lsp_unidirectional_match_dn,
      parse_show_rsvp_session_first, parse_show_rsvp_session_second,
      parse_show_rsvp_session_ma, parse_show_mpls_lsp_unidirectional, hg]

/-- Witness for C10 at the concrete segment `"  NoNe "`. -/
theorem guarded_parsers_treat_none_as_absent_witness :
    parse_show_rsvp_session_match_dn (some "  NoNe ".toList) = {} ∧
    parse_show_mpls_lsp_unidirectional (some "  NoNe ".toList) = {} := by
  have h := guarded_parsers_treat_none_as_absent ("  NoNe ".toList) (by decide)
  exact ⟨h.1, h.2.2.2.2.2⟩

/-- C1, counterexample: `parse_show_vrrp_summary` on an absent (`None`)
segment does not return the zero-value collection — the regex parser's
first action `cli_output.split('\n')` raises `AttributeError`. -/
theorem parse_absent_raises_counterexample :
    parse_show_vrrp_summary none = Except.error errAttributeError := rfl

/-- C1, amended: `parse("")` yields the zero-value collection for every
parser, and the guarded parsers (17-22) also map an absent (`None`)
segment to the zero value; but the unguarded parsers raise
(`TypeError` in the ARP fallback, `AttributeError` at `None.split`)
when called on an absent segment. -/
theorem parse_empty_zero_and_absent_behaviour :
    parse_show_arp_no_resolve (some []) = .ok {} ∧
    parse_show_vrrp_summary (some []) = .ok {} ∧
    parse_show_rsvp_session (some []) = .ok {} ∧
    parse_show_mpls_lsp (some []) = .ok {} ∧
    parse_show_rsvp_session_match_dn none = {} ∧
    parse_show_mpls_lsp_unidirectional_match_dn none = {} ∧
    parse_show_rsvp_session_first none = {} ∧
    parse_show_rsvp_session_second none = {} ∧
    parse_show_rsvp_session_ma none = {} ∧
    parse_show_mpls_lsp_unidirectional none = {} ∧
    parse_show_rsvp_session_match_dn (some []) = {} ∧
    parse_show_mpls_lsp_unidirectional_match_dn (some []) = {} ∧
    parse_show_arp_no_resolve none = .error errTypeError ∧
    parse_show_vrrp_summary none = .error errAttributeError ∧
    parse_show_rsvp_session none = .error errAttributeError ∧
    parse_show_mpls_lsp none = .error errAttributeError := by
  refine ⟨rfl, rfl, rfl, rfl, rfl, rfl, rfl, rfl, rfl, rfl, ?_, ?_, rfl, rfl, rfl, rfl⟩ <;> decide

lemma find?_app {α : Type} (p : α → Bool) (l₁ l₂ : List α) :
    (l₁ ++ l₂).find? p = (l₁.find? p).or (l₂.find? p) := by
  induction l₁ with
  | nil => simp
  | cons a tl ih =>
    by_cases hp : p a = true
    · simp [List.find?_cons, hp]
    · simp only [List.cons_append, List.find?_cons, hp]
      simp [hp, ih]

lemma find?_overwrite_ne {m : List (Str × ShowArpNoResolveEntry)} {kk k : Str}
    {v : ShowArpNoResolveEntry} (hk : (kk == k) = false) :
    (m.map (fun q => if q.1 == kk then (kk, v) else q)).find? (fun q => q.1 == k)
      = m.find? (fun q => q.1 == k) := by
  induction m with
  | nil => rfl
  | cons p tl ih =>
    rw [List.map_cons]
    by_cases hp : (p.1 == kk) = true
    · have hd : (if (p.1 == kk) = true then (kk, v) else p) = (kk, v) := if_pos hp
      have hp1 : p.1 = kk := eq_of_beq hp
      have hne : (p.1 == k) = false := by rw [hp1]; exact hk
      rw [hd]
      simp only [List.find?_cons, hk, hne, ih]
    · have hd : (if (p.1 == kk) = true then (kk, v) else p) = p := if_neg hp
      rw [hd]
      rcases hpk : (p.1 == k) with _ | _ <;> simp only [List.find?_cons, hpk, ih]

lemma find?_overwrite_eq {m : List (Str × ShowArpNoResolveEntry)} {kk : Str}
    {v : ShowArpNoResolveEntry}
    (hany : m.any (fun q => q.1 == kk) = true) :
    (m.map (fun q => if q.1 == kk then (kk, v) else q)).find? (fun q => q.1 == kk)
      = some (kk, v) := by
  induction m with
  | nil => simp at hany
  | cons p tl ih =>
    rw [List.map_cons]
    by_cases hp : (p.1 == kk) = true
    · have hd : (if (p.1 == kk) = true then (kk, v) else p) = (kk, v) := if_pos hp
      rw [hd]
      simp only [List.find?_cons, beq_self_eq_true]
    · have hd : (if (p.1 == kk) = true then (kk, v) else p) = p := if_neg hp
      have hp' : (p.1 == kk) = false := by rwa [Bool.not_eq_true] at hp
      have htl : tl.any (fun q => q.1 == kk) = true := by
        simp only [List.any_cons, hp', Bool.false_or] at hany
        exact hany
      rw [hd]
      simp only [List.find?_cons, hp', ih htl]

lemma find?_none_of_any_false {m : List (Str × ShowArpNoResolveEntry)} {kk : Str}
    (hany : m.any (fun q => q.1 == kk) = false) :
    m.find? (fun q => q.1 == kk) = none := by
  rw [List.find?_eq_none]
  intro x hx hpx
  have h : m.any (fun q => q.1 == kk) = true := List.any_eq_true.mpr ⟨x, hx, hpx⟩
  rw [hany] at h
  cases h

/-- `dict.get` after one Python dict insertion `m[kk] = v`. -/
lemma dget_dinsert (m : List (Str × ShowArpNoResolveEntry)) (kk k : Str)
    (v : ShowArpNoResolveEntry) :
    dget (dinsert m kk v) k = if kk == k then some v else dget m k := by
  rw [dinsert]
  by_cases hany : m.any (fun q => q.1 == kk) = true
  · rw [if_pos hany]
    by_cases hk : (kk == k) = true
    · have hkk : kk = k := eq_of_beq hk
      subst hkk
      rw [if_pos hk]
      simp only [dget, find?_overwrite_eq hany]
      rfl
    · have hk' : (kk == k) = false := by rwa [Bool.not_eq_true] at hk
      rw [if_neg (by simp [hk'])]
      simp only [dget, find?_overwrite_ne hk']
  · have hany' : m.any (fun q => q.1 == kk) = false := by rwa [Bool.not_eq_true] at hany
    rw [if_neg hany]
    simp only [dget, find?_app]
    by_cases hk : (kk == k) = true
    · have hkk : kk = k := eq_of_beq hk
      subst hkk
      rw [if_pos hk, find?_none_of_any_false hany']
      simp only [List.find?_cons, hk, Option.none_or]
      rfl
    · have hk' : (kk == k) = false := by rwa [Bool.not_eq_true] at hk
      rw [if_neg (by simp [hk'])]
      simp only [List.find?_cons, hk']
      simp

lemma dget_build (entries : List ShowArpNoResolveEntry)
    (m : List (Str × ShowArpNoResolveEntry)) (k : Str) :
    dget (entries.foldl (fun m e => dinsert m e.ip_address e) m) k
      = (entries.reverse.find? (fun e => e.ip_address == k)).or (dget m k) := by
  induction entries generalizing m with
  | nil => simp
  | cons e tl ih =>
    rw [List.foldl_cons, ih, List.reverse_cons, find?_app, Option.or_assoc]
    congr 1
    rw [dget_dinsert]
    by_cases hk : (e.ip_address == k) = true
    · simp [List.find?_cons, hk]
    · have hk' : (e.ip_address == k) = false := by simpa using hk
      simp [List.find?_cons, hk']

/-- C9: building one side's key-to-record lookup resolves duplicate keys
by last-write-wins — the lookup of `k` in the dict built by successive
insertion is exactly the last entry of the list whose `ip_address` is
`k` (the first in the reversed list); no error is raised (the builder is
total) and no flag is attached (the result is the plain entry). -/
theorem arp_dict_last_write_wins (entries : List ShowArpNoResolveEntry) (k : Str) :
    dget (buildArpDict entries) k
      = entries.reverse.find? (fun e => e.ip_address == k) := by
  rw [buildArpDict, dget_build]
  simp [dget]

lemma det_eq_cm_aux (n : Nat) :
    (∀ j : JValue, sizeOf j ≤ n → detElemRed j = containsMismatch j) ∧
    (∀ xs : List JValue, sizeOf xs ≤ n → detListHasRed xs = cmList xs) ∧
    (∀ kvs : List (Str × JValue), sizeOf kvs ≤ n → detObjHasRed kvs = cmObj kvs) := by
  induction n with
  | zero =>
    refine ⟨?_, ?_, ?_⟩
    · intro j hj
      exfalso
      cases j <;> simp at hj
    · intro xs hxs
      exfalso
      cases xs <;> simp at hxs
    · intro kvs hkvs
      exfalso
      cases kvs <;> simp at hkvs
  | succ n ih =>
    obtain ⟨ihJ, ihL, ihO⟩ := ih
    refine ⟨?_, ?_, ?_⟩
    · intro j hj
      cases j with
      | str v => rfl
      | int v => rfl
      | arr xs =>
        have hx : sizeOf xs ≤ n := by simp at hj; omega
        simpa [detElemRed, containsMismatch] using ihL xs hx
      | obj kvs =>
        have hx : sizeOf kvs ≤ n := by simp at hj; omega
        simpa [detElemRed, containsMismatch] using ihO kvs hx
    · intro xs hxs
      cases xs with
      | nil => rfl
      | cons x tl =>
        have hx : sizeOf x ≤ n := by simp at hxs; omega
        have ht : sizeOf tl ≤ n := by simp at hxs; omega
        rw [detListHasRed, cmList, ihJ x hx, ihL tl ht]
    · intro kvs hkvs
      cases kvs with
      | nil => rfl
      | cons kv tl =>
        obtain ⟨ka, kb⟩ := kv
        have hx : sizeOf kb ≤ n := by simp at hkvs; omega
        have ht : sizeOf tl ≤ n := by simp at hkvs; omega
        rw [detObjHasRed, cmObj, ihJ kb hx, ihO tl ht]

/-- The two container loops of `determine_overall_color` compute exactly
the spec's "some mismatch tag anywhere below" predicate. -/
lemma detList_eq_cmList (xs : List JValue) : detListHasRed xs = cmList xs :=
  (det_eq_cm_aux (sizeOf xs)).2.1 xs le_rfl

lemma detObj_eq_cmObj (kvs : List (Str × JValue)) : detObjHasRed kvs = cmObj kvs :=
  (det_eq_cm_aux (sizeOf kvs)).2.2 kvs le_rfl

/-- The per-value container test of the source's loops
(`determine_overall_color(value) == "red"`) agrees with the direct child
predicates used in the embedding (`detElemRed`). -/
lemma det_container_red :
    (∀ ys : List JValue, (determine_overall_color (.arr ys) == tokRed) = detListHasRed ys) ∧
    (∀ ys : List (Str × JValue), (determine_overall_color (.obj ys) == tokRed) = detObjHasRed ys) := by
  constructor
  · intro ys
    simp only [determine_overall_color]
    cases h : detListHasRed ys
    · decide
    · decide
  · intro ys
    simp only [determine_overall_color]
    cases h : detObjHasRed ys
    · decide
    · decide

/-- The comparison row emitted for a key present only on the pre side. -/
def arpDeletedRow : ArpCompEntry :=
  { ip_address := tokRed, mac_address := tokRed, interface := tokRed,
    flags := tokRed, status := some tokDeleted }

/-- The comparison row emitted for a key present only on the post side. -/
def arpAddedRow : ArpCompEntry :=
  { ip_address := tokRed, mac_address := tokRed, interface := tokRed,
    flags := tokRed, status := some tokAdded }

/-- The comparison row emitted for a key whose two entries agree on every
field. -/
def arpAllGreenRow : ArpCompEntry :=
  { ip_address := tokGreen, mac_address := tokGreen, interface := tokGreen,
    flags := tokGreen }

/-- C5: key-based diff alignment and rollup.  `compare_arp_entries` walks
the sorted key union emitting one row per key; a key found only in the
pre-side lookup is tagged "deleted" with every field red (mismatch), a
key found only in the post side "added" with every field red, and a key
whose entries agree on every field gets all fields green with no status
tag.  The overall verdict (`determine_overall_color`) of any comparison
tree (dict or list) is green ("match") exactly when no string leaf "red"
(mismatch tag) occurs anywhere in the recursively traversed tree. -/
theorem diff_key_alignment_and_rollup (pre post : List ShowArpNoResolveEntry)
    (ip : Str) :
    (compare_arp_entries pre post = (arpAllIps pre post).map (arpCompareAt pre post)) ∧
    (∀ pe, dget (buildArpDict pre) ip = some pe →
      dget (buildArpDict post) ip = none →
      arpCompareAt pre post ip = arpDeletedRow) ∧
    (dget (buildArpDict pre) ip = none →
      ∀ qe, dget (buildArpDict post) ip = some qe →
      arpCompareAt pre post ip = arpAddedRow) ∧
    (∀ e, dget (buildArpDict pre) ip = some e →
      dget (buildArpDict post) ip = some e →
      arpCompareAt pre post ip = arpAllGreenRow) ∧
    (∀ j : JValue, jIsContainer j = true →
      (determine_overall_color j = tokGreen ↔ containsMismatch j = false)) := by
  refine ⟨rfl, ?_, ?_, ?_, ?_⟩
  · intro pe h1 h2
    rw [arpCompareAt, h1, h2]
    rfl
  · intro h1 qe h2
    rw [arpCompareAt, h1, h2]
    rfl
  · intro e h1 h2
    rw [arpCompareAt, h1, h2]
    simp [compare_values, arpAllGreenRow]
  · intro j hj
    cases j with
    | str v => simp [jIsContainer] at hj
    | int v => simp [jIsContainer] at hj
    | arr xs =>
      simp only [determine_overall_color, containsMismatch, detList_eq_cmList]
      cases h : cmList xs
      · simp
      · simp
        decide
    | obj kvs =>
      simp only [determine_overall_color, containsMismatch, detObj_eq_cmObj]
      cases h : cmObj kvs
      · simp
      · simp
        decide

def wEntryA : ShowArpNoResolveEntry :=
  ⟨"aa:aa".toList, "10.0.0.1".toList, "ge-0/0/0".toList, "none".toList⟩
def wEntryB : ShowArpNoResolveEntry :=
  ⟨"bb:bb".toList, "10.0.0.2".toList, "ge-0/0/1".toList, "none".toList⟩
def wEntryC : ShowArpNoResolveEntry :=
  ⟨"cc:cc".toList, "10.0.0.3".toList, "ge-0/0/2".toList, "none".toList⟩

/-- Witness for C5 at concrete collections: `10.0.0.2` deleted,
`10.0.0.3` added, `10.0.0.1` unchanged, and a concrete rollup. -/
theorem diff_key_alignment_and_rollup_witness :
    arpCompareAt [wEntryA, wEntryB] [wEntryA, wEntryC] ("10.0.0.2".toList) = arpDeletedRow ∧
    arpCompareAt [wEntryA, wEntryB] [wEntryA, wEntryC] ("10.0.0.3".toList) = arpAddedRow ∧
    arpCompareAt [wEntryA, wEntryB] [wEntryA, wEntryC] ("10.0.0.1".toList) = arpAllGreenRow ∧
    (determine_overall_color (.obj [("mac_address".toList, .str tokRed)]) = tokGreen ↔
      containsMismatch (.obj [("mac_address".toList, .str tokRed)]) = false) := by
  refine ⟨?_, ?_, ?_, ?_⟩
  · exact (diff_key_alignment_and_rollup [wEntryA, wEntryB] [wEntryA, wEntryC]
      ("10.0.0.2".toList)).2.1 wEntryB (by decide) (by decide)
  · exact (diff_key_alignment_and_rollup [wEntryA, wEntryB] [wEntryA, wEntryC]
      ("10.0.0.3".toList)).2.2.1 (by decide) wEntryC (by decide)
  · exact (diff_key_alignment_and_rollup [wEntryA, wEntryB] [wEntryA, wEntryC]
      ("10.0.0.1".toList)).2.2.2.1 wEntryA (by decide) (by decide)
  · exact (diff_key_alignment_and_rollup [wEntryA, wEntryB] [wEntryA, wEntryC]
      ("10.0.0.1".toList)).2.2.2.2 _ (by decide)

lemma takeWhile_append_stop (p : Char → Bool) (c0 : Char) (hc : p c0 = false)
    (l z : Str) : ((l ++ c0 :: z).takeWhile p) = l.takeWhile p := by
  induction l with
  | nil => simp [List.takeWhile, hc]
  | cons c tl ih =>
    by_cases hpc : p c = true
    · simp [List.takeWhile_cons, hpc, ih]
    · simp [List.takeWhile_cons, hpc]

lemma takeWhile_all (p : Char → Bool) (l : Str) (h : l.all p = true) :
    l.takeWhile p = l := by
  induction l with
  | nil => rfl
  | cons c tl ih =>
    simp only [List.all_cons, Bool.and_eq_true] at h
    simp [List.takeWhile_cons, h.1, ih h.2]

lemma pyLStrip_noop (x : Str) (h : headNonWs x = true) : pyLStrip x = x := by
  cases x with
  | nil => rfl
  | cons c tl =>
    simp only [headNonWs, Bool.not_eq_true'] at h
    simp [pyLStrip, List.dropWhile_cons, h]

lemma lastNonWs_cons (a : Char) (z : Str) (hz : z ≠ []) :
    lastNonWs (a :: z) = lastNonWs z := by
  cases z with
  | nil => cases hz rfl
  | cons c tl => rfl

lemma lastNonWs_append (x z : Str) (hz0 : z ≠ []) (hz : lastNonWs z = true) :
    lastNonWs (x ++ z) = true := by
  induction x with
  | nil => simpa using hz
  | cons c tl ih =>
    have hne : tl ++ z ≠ [] := by
      intro h
      rcases List.append_eq_nil.mp h with ⟨-, h2⟩
      exact hz0 h2
    rw [List.cons_append, lastNonWs_cons c (tl ++ z) hne]
    exact ih

lemma pyRStrip_noop (x : Str) (h : lastNonWs x = true) : pyRStrip x = x := by
  induction x with
  | nil => simp [lastNonWs] at h
  | cons c tl ih =>
    cases tl with
    | nil =>
      simp only [lastNonWs, Bool.not_eq_true'] at h
      simp [pyRStrip, h]
    | cons b bt =>
      have h' : lastNonWs (b :: bt) = true := by
        rw [lastNonWs_cons c (b :: bt) (by simp)] at h
        exact h
      rw [pyRStrip, ih h']

lemma pyStrip_noop (x : Str) (h1 : headNonWs x = true) (h2 : lastNonWs x = true) :
    pyStrip x = x := by
  rw [pyStrip, pyLStrip_noop x h1, pyRStrip_noop x h2]

lemma pyRStrip_append_one_ws (x : Str) (c : Char) (hc : isPySpace c = true) :
    pyRStrip (x ++ [c]) = pyRStrip x := by
  induction x with
  | nil => simp [pyRStrip, hc]
  | cons a tl ih =>
    rw [List.cons_append, pyRStrip, ih, pyRStrip]

lemma headNonWs_append (l z : Str) (hl : headNonWs l = true) :
    headNonWs (l ++ z) = true := by
  cases l with
  | nil => simp [headNonWs] at hl
  | cons c tl => simpa [headNonWs] using hl

lemma joinNlR_eq (ls : List Str) (h : ls ≠ []) :
    joinNlR ls = joinNl ls ++ ['\n'] := by
  induction ls with
  | nil => cases h rfl
  | cons l rest ih =>
    cases rest with
    | nil => simp [joinNlR, joinNl]
    | cons r rs =>
      have hih := ih (List.cons_ne_nil r rs)
      simp only [joinNlR, List.foldr_cons] at hih ⊢
      have hj : joinNl (l :: r :: rs) = l ++ '\n' :: joinNl (r :: rs) := rfl
      rw [hih, hj]
      simp

lemma splitNl_no_nl (l : Str) (h : l.contains '\n' = false) : splitNl l = [l] := by
  induction l with
  | nil => rfl
  | cons c tl ih =>
    have hc : ¬(c = '\n') := by
      intro hc
      subst hc
      simp [List.contains_cons] at h
    have htl : tl.contains '\n' = false := by
      have : '\n' ∉ tl := fun hm => by simp [List.contains_cons, hm] at h
      simpa using this
    rw [splitNl, ih htl]
    simp [hc]

lemma splitNl_append_line (l : Str) (h : l.contains '\n' = false) (z : Str) :
    splitNl (l ++ '\n' :: z) = l :: splitNl z := by
  induction l with
  | nil =>
    rw [List.nil_append, splitNl]
    rcases hz : splitNl z with _ | ⟨a, b⟩
    · cases z with
      | nil => simp [splitNl] at hz
      | cons c tl =>
        rw [splitNl] at hz
        rcases h2 : splitNl tl with _ | ⟨x, y⟩
        · rw [h2] at hz; simp at hz
        · rw [h2] at hz
          by_cases hc : c = '\n' <;> simp [hc] at hz
    · simp
  | cons c tl ih =>
    have hc : ¬(c = '\n') := by
      intro hc; subst hc; simp [List.contains_cons] at h
    have htl : tl.contains '\n' = false := by
      have : '\n' ∉ tl := fun hm => by simp [List.contains_cons, hm] at h
      simpa using this
    rw [List.cons_append, splitNl, ih htl]
    simp [hc]

lemma dropWhile_all_append (p : Char → Bool) (x y : Str) (h : x.all p = true) :
    (x ++ y).dropWhile p = y.dropWhile p := by
  induction x with
  | nil => rfl
  | cons c tl ih =>
    simp only [List.all_cons, Bool.and_eq_true] at h
    simp [List.dropWhile_cons, h.1, ih h.2]

lemma rsplitDropLast_spec (A B : Str) (hB : B.contains '\n' = false) :
    rsplitDropLast (A ++ '\n' :: B) = A := by
  rw [rsplitDropLast]
  have hrev : (A ++ '\n' :: B).reverse = B.reverse ++ '\n' :: A.reverse := by
    simp
  have hnotmem : '\n' ∉ B := by simpa using hB
  rw [hrev, dropWhile_all_append]
  · simp [List.dropWhile_cons]
  · rw [List.all_eq_true]
    intro c hc
    have hmem : c ∈ B := List.mem_reverse.mp hc
    have hne : ¬(c = '\n') := fun hceq => hnotmem (hceq ▸ hmem)
    simp [hne]

/-! ### Matcher evaluation lemmas -/

lemma pSeq_some (f g : M) (s c1 r1 : Str) (hf : f s = some (c1, r1)) :
    pSeq f g s = Option.map (fun p => (c1 ++ p.1, p.2)) (g r1) := by
  simp only [pSeq, hf]
  cases g r1 <;> rfl

lemma pSeq_none (f g : M) (s : Str) (hf : f s = none) : pSeq f g s = none := by
  simp only [pSeq, hf]

lemma startsWithCI_self (w z : Str) : startsWithCI w (w ++ z) = true := by
  induction w with
  | nil => rfl
  | cons c tl ih => simp [startsWithCI, ih]

lemma startsWithCS_self (w z : Str) : startsWithCS w (w ++ z) = true := by
  induction w with
  | nil => rfl
  | cons c tl ih => simp [startsWithCS, ih]

lemma litCI_self (w z : Str) : litCI w (w ++ z) = some (w, z) := by
  simp [litCI, startsWithCI_self, List.take_left, List.drop_left]

lemma litCS_self (w z : Str) : litCS w (w ++ z) = some (w, z) := by
  simp [litCS, startsWithCS_self, List.take_left, List.drop_left]

lemma takeWhile_ws_nil (s : Str) (h : headNonWs s = true) :
    s.takeWhile isPySpace = [] := by
  cases s with
  | nil => rfl
  | cons c tl =>
    simp only [headNonWs, Bool.not_eq_true'] at h
    simp [List.takeWhile_cons, h]

lemma wsPlus_one (s : Str) (h : headNonWs s = true) : wsPlus (' ' :: s) = some ([' '], s) := by
  have h1 : isPySpace ' ' = true := by decide
  simp [wsPlus, runPlus, List.takeWhile_cons, h1, takeWhile_ws_nil s h]

lemma wsStar_one (s : Str) (h : headNonWs s = true) : wsStar (' ' :: s) = some ([' '], s) := by
  have h1 : isPySpace ' ' = true := by decide
  simp [wsStar, List.takeWhile_cons, h1, takeWhile_ws_nil s h]

lemma wsStar_nl_one (c : Char) (z : Str) (hc : isPySpace c = false) :
    wsStar ('\n' :: c :: z) = some (['\n'], c :: z) := by
  have h1 : isPySpace '\n' = true := by decide
  simp [wsStar, List.takeWhile_cons, h1, hc]

lemma eolWs_nl (c : Char) (z : Str) (hc : isPySpace c = false) :
    eolWs ('\n' :: c :: z) = some ([], '\n' :: c :: z) := by
  have h1 : isPySpace '\n' = true := by decide
  simp only [eolWs, List.takeWhile_cons, h1, hc]
  rfl

lemma runPlus_run (p : Char → Bool) (a : Str) (c : Char) (z : Str)
    (ha : a.all p = true) (hne : a ≠ []) (hc : p c = false) :
    runPlus p (a ++ c :: z) = some (a, c :: z) := by
  simp only [runPlus, takeWhile_append_stop p c hc, takeWhile_all p a ha]
  rw [List.drop_left]
  cases a with
  | nil => cases hne rfl
  | cons b bt => rfl

lemma runPlus_end (p : Char → Bool) (a : Str) (ha : a.all p = true) (hne : a ≠ []) :
    runPlus p a = some (a, []) := by
  simp only [runPlus, takeWhile_all p a ha, List.drop_length]
  cases a with
  | nil => cases hne rfl
  | cons b bt => rfl

lemma litCS_head_ne (w0 : Char) (ws : Str) (c : Char) (z : Str) (hc : ¬(c = w0)) :
    litCS (w0 :: ws) (c :: z) = none := by
  simp [litCS, startsWithCS, hc]

lemma headNonWs_rsvp : headNonWs tokRsvp = true := by decide

lemma headNonWs_session : headNonWs tokSession = true := by decide

/-- Evaluation of the shared `show\s+A\s+B\s*\|\s*no-more` shape at its own
single-spaced rendering, for an arbitrary tail. -/
lemma pipedCmd_at (w1 w2 w3 w4 : Str) (z : Str)
    (h2 : headNonWs w2 = true) (h3 : headNonWs w3 = true) (h4 : headNonWs w4 = true) :
    pSeq (litCI w1) (pSeq wsPlus (pSeq (litCI w2) (pSeq wsPlus (pSeq (litCI w3)
      (pSeq wsStar (pSeq (litCS tokPipe) (pSeq wsStar (litCI w4))))))))
      (w1 ++ ' ' :: (w2 ++ ' ' :: (w3 ++ ' ' :: '|' :: ' ' :: (w4 ++ z))))
      = some (w1 ++ ' ' :: (w2 ++ ' ' :: (w3 ++ ' ' :: '|' :: ' ' :: w4)), z) := by
  rw [pSeq_some _ _ _ _ _ (litCI_self w1 _),
      pSeq_some _ _ _ _ _ (wsPlus_one _ (headNonWs_append w2 _ h2)),
      pSeq_some _ _ _ _ _ (litCI_self w2 _),
      pSeq_some _ _ _ _ _ (wsPlus_one _ (headNonWs_append w3 _ h3)),
      pSeq_some _ _ _ _ _ (litCI_self w3 _),
      pSeq_some _ _ _ _ _ (wsStar_one _ (by rfl)),
      pSeq_some _ _ _ _ _ (show litCS tokPipe ('|' :: ' ' :: (w4 ++ z))
        = some (['|'], ' ' :: (w4 ++ z)) from litCS_self tokPipe (' ' :: (w4 ++ z))),
      pSeq_some _ _ _ _ _ (wsStar_one _ (headNonWs_append w4 _ h4)),
      litCI_self w4 z]
  simp

/-- `cmdRsvp6` matches at its own single-spaced spelling, consuming exactly
the command text. -/
lemma cmd6_at (z : Str) : cmdRsvp6 (rsvp6Tok ++ z) = some (rsvp6Tok, z) := by
  have e1 : rsvp6Tok ++ z
      = tokShow ++ ' ' :: (tokRsvp ++ ' ' :: (tokSession ++ ' ' :: '|' :: ' ' :: (tokNoMore ++ z))) := rfl
  have e2 : tokShow ++ ' ' :: (tokRsvp ++ ' ' :: (tokSession ++ ' ' :: '|' :: ' ' :: tokNoMore))
      = rsvp6Tok := by decide
  rw [e1, cmdRsvp6, pipedCmd_at tokShow tokRsvp tokSession tokNoMore z
    (by decide) (by decide) (by decide), e2]

/-- `cmdVrrp` matches at its own single-spaced spelling. -/
lemma cmdVrrp_at (z : Str) : cmdVrrp (vrrpCmdTok ++ z) = some (vrrpCmdTok, z) := by
  have e1 : vrrpCmdTok ++ z
      = tokShow ++ ' ' :: (tokVrrp ++ ' ' :: (tokSummary ++ ' ' :: '|' :: ' ' :: (tokNoMore ++ z))) := rfl
  have e2 : tokShow ++ ' ' :: (tokVrrp ++ ' ' :: (tokSummary ++ ' ' :: '|' :: ' ' :: tokNoMore))
      = vrrpCmdTok := by decide
  rw [e1, cmdVrrp, pipedCmd_at tokShow tokVrrp tokSummary tokNoMore z
    (by decide) (by decide) (by decide), e2]

/-- `cmdArp` matches at its own single-spaced spelling. -/
lemma cmdArp_at (z : Str) : cmdArp (arpCmdTok ++ z) = some (arpCmdTok, z) := by
  have e1 : arpCmdTok ++ z
      = tokShow ++ ' ' :: (tokArp ++ ' ' :: (tokNoResolve ++ ' ' :: '|' :: ' ' :: (tokNoMore ++ z))) := rfl
  have e2 : tokShow ++ ' ' :: (tokArp ++ ' ' :: (tokNoResolve ++ ' ' :: '|' :: ' ' :: tokNoMore))
      = arpCmdTok := by decide
  rw [e1, cmdArp, pipedCmd_at tokShow tokArp tokNoResolve tokNoMore z
    (by decide) (by decide) (by decide), e2]

/-- The end-of-line-anchored bare pattern matches at a bare command line
whose following line starts with a non-space character; the `\s*$` part
consumes nothing. -/
lemma bare19_match_at (c : Char) (z : Str) (hc : isPySpace c = false) :
    cmdBare19 (bare19Tok ++ '\n' :: c :: z) = some (bare19Tok, '\n' :: c :: z) := by
  have e1 : bare19Tok ++ '\n' :: c :: z
      = tokShow ++ ' ' :: (tokRsvp ++ ' ' :: (tokSession ++ '\n' :: c :: z)) := rfl
  have e2 : tokShow ++ ' ' :: (tokRsvp ++ ' ' :: (tokSession ++ ([] : Str)))
      = bare19Tok := by decide
  rw [e1, cmdBare19,
      pSeq_some _ _ _ _ _ (litCI_self tokShow _),
      pSeq_some _ _ _ _ _ (wsPlus_one _ (headNonWs_append tokRsvp _ headNonWs_rsvp)),
      pSeq_some _ _ _ _ _ (litCI_self tokRsvp _),
      pSeq_some _ _ _ _ _ (wsPlus_one _ (headNonWs_append tokSession _ headNonWs_session)),
      pSeq_some _ _ _ _ _ (litCI_self tokSession _),
      eolWs_nl c z hc]
  rw [← e2]
  simp

/-- The piped pattern does not match at a bare command line followed by a
line that starts with a non-space character other than `|`: after `\s*`
eats the newline, the literal `\|` fails. -/
lemma cmd6_not_match_bare_line (c : Char) (z : Str) (hc : isPySpace c = false)
    (hp : ¬(c = '|')) :
    cmdRsvp6 (bare19Tok ++ '\n' :: c :: z) = none := by
  have e1 : bare19Tok ++ '\n' :: c :: z
      = tokShow ++ ' ' :: (tokRsvp ++ ' ' :: (tokSession ++ '\n' :: c :: z)) := rfl
  rw [e1, cmdRsvp6,
      pSeq_some _ _ _ _ _ (litCI_self tokShow _),
      pSeq_some _ _ _ _ _ (wsPlus_one _ (headNonWs_append tokRsvp _ headNonWs_rsvp)),
      pSeq_some _ _ _ _ _ (litCI_self tokRsvp _),
      pSeq_some _ _ _ _ _ (wsPlus_one _ (headNonWs_append tokSession _ headNonWs_session)),
      pSeq_some _ _ _ _ _ (litCI_self tokSession _),
      pSeq_some _ _ _ _ _ (wsStar_nl_one c z hc),
      pSeq_none _ _ _ (show litCS tokPipe (c :: z) = none from litCS_head_ne '|' [] c z hp)]
  simp

/-- The bare end-anchored pattern does not match at the piped command
line: `\s*$` finds a `|`, not an end of line. -/
lemma cmdBare19_not_at_piped (z : Str) : cmdBare19 (rsvp6Tok ++ '\n' :: z) = none := rfl

/-! ### `re.search` position-skipping machinery -/

lemma findMatchPre_cons_none (m : M) (c : Char) (tl : Str) (h : m (c :: tl) = none) :
    findMatchPre m (c :: tl)
      = (findMatchPre m tl).map (fun p => (c :: p.1, p.2.1, p.2.2)) := by
  simp [findMatchPre, h]

lemma findMatchPre_cons_some (m : M) (c : Char) (tl co r : Str) (h : m (c :: tl) = some (co, r)) :
    findMatchPre m (c :: tl) = some ([], co, r) := by
  simp [findMatchPre, h]

lemma findMatchPre_eq_none (m : M) (t : Str) (h : ∀ i, i ≤ t.length → m (t.drop i) = none) :
    findMatchPre m t = none := by
  induction t with
  | nil =>
    have h0 := h 0 (Nat.le_refl 0)
    simp only [List.drop] at h0
    simp [findMatchPre, h0]
  | cons c tl ih =>
    have h0 := h 0 (Nat.zero_le _)
    simp only [List.drop] at h0
    rw [findMatchPre_cons_none m c tl h0,
        ih (fun i hi => h (i + 1) (by simpa using hi))]
    rfl

lemma startsWithCI_append_nl (w a b : Str)
    (hw : w.all (fun c => !(lowc c = '\n')) = true) :
    startsWithCI w (a ++ '\n' :: b) = startsWithCI w a := by
  induction w generalizing a with
  | nil => rfl
  | cons wc ws ih =>
    simp only [List.all_cons, Bool.and_eq_true, Bool.not_eq_true',
               decide_eq_false_iff_not] at hw
    cases a with
    | nil =>
      show (decide (lowc '\n' = lowc wc) && startsWithCI ws b) = startsWithCI (wc :: ws) []
      have h2 : decide (lowc '\n' = lowc wc) = false := by
        rw [decide_eq_false_iff_not]
        intro h3
        exact hw.1 (by rw [← h3]; decide)
      rw [h2]
      rfl
    | cons ac as =>
      show (decide (lowc ac = lowc wc) && startsWithCI ws (as ++ '\n' :: b))
          = (decide (lowc ac = lowc wc) && startsWithCI ws as)
      rw [ih as hw.2]

lemma startsWithCI_nl_false (w : Str)
    (hw : w.all (fun c => !(lowc c = '\n')) = true) (hw0 : w ≠ []) (z : Str) :
    startsWithCI w ('\n' :: z) = false := by
  cases w with
  | nil => cases hw0 rfl
  | cons wc ws =>
    simp only [List.all_cons, Bool.and_eq_true, Bool.not_eq_true',
               decide_eq_false_iff_not] at hw
    show (decide (lowc '\n' = lowc wc) && startsWithCI ws z) = false
    have h2 : decide (lowc '\n' = lowc wc) = false := by
      rw [decide_eq_false_iff_not]
      intro h3
      exact hw.1 (by rw [← h3]; decide)
    rw [h2]
    rfl

lemma findMatchPre_skip_nl (m : M) (w : Str)
    (hm : ∀ s, startsWithCI w s = false → m s = none)
    (hw : w.all (fun c => !(lowc c = '\n')) = true) (hw0 : w ≠ []) (z : Str) :
    findMatchPre m ('\n' :: z)
      = (findMatchPre m z).map (fun p => ('\n' :: p.1, p.2.1, p.2.2)) :=
  findMatchPre_cons_none m '\n' z (hm _ (startsWithCI_nl_false w hw hw0 z))

lemma findMatchPre_skip_line (m : M) (w : Str)
    (hm : ∀ s, startsWithCI w s = false → m s = none)
    (hw : w.all (fun c => !(lowc c = '\n')) = true) (hw0 : w ≠ [])
    (l : Str) (hl : containsCI w l = false) (z : Str) :
    findMatchPre m (l ++ '\n' :: z)
      = (findMatchPre m z).map (fun p => (l ++ '\n' :: p.1, p.2.1, p.2.2)) := by
  induction l with
  | nil =>
    rw [List.nil_append, findMatchPre_skip_nl m w hm hw hw0 z]
    cases findMatchPre m z <;> rfl
  | cons c tl ih =>
    rw [containsCI] at hl
    simp only [Bool.or_eq_false_iff] at hl
    have hfail : m ((c :: tl) ++ '\n' :: z) = none :=
      hm _ (by rw [startsWithCI_append_nl w _ _ hw]; exact hl.1)
    rw [List.cons_append, findMatchPre_cons_none m c (tl ++ '\n' :: z) hfail, ih hl.2]
    cases findMatchPre m z <;> rfl

lemma findMatchPre_skip_block (m : M) (w : Str)
    (hm : ∀ s, startsWithCI w s = false → m s = none)
    (hw : w.all (fun c => !(lowc c = '\n')) = true) (hw0 : w ≠ [])
    (ls : List Str) (hb : ∀ l ∈ ls, containsCI w l = false) (z : Str) :
    findMatchPre m (joinNlR ls ++ z)
      = (findMatchPre m z).map (fun p => (joinNlR ls ++ p.1, p.2.1, p.2.2)) := by
  induction ls with
  | nil =>
    simp only [joinNlR, List.foldr_nil, List.nil_append]
    cases findMatchPre m z <;> rfl
  | cons l rest ih =>
    have e : joinNlR (l :: rest) ++ z = l ++ '\n' :: (joinNlR rest ++ z) := by
      simp [joinNlR]
    rw [e, findMatchPre_skip_line m w hm hw hw0 l (hb l (List.mem_cons_self l rest)) _,
        ih (fun x hx => hb x (List.mem_cons_of_mem l hx))]
    cases findMatchPre m z <;> simp [joinNlR]

lemma swShow_head (c : Char) (z : Str) (hc : ¬(lowc c = 's')) :
    startsWithCI tokShow (c :: z) = false := by
  show (decide (lowc c = lowc 's') && startsWithCI ['h', 'o', 'w'] z) = false
  have h1 : lowc 's' = 's' := by decide
  rw [h1, decide_eq_false hc]
  rfl

lemma swShow_head2 (c d : Char) (z : Str) (hd : ¬(lowc d = 'h')) :
    startsWithCI tokShow (c :: d :: z) = false := by
  show (decide (lowc c = lowc 's') &&
        (decide (lowc d = lowc 'h') && startsWithCI ['o', 'w'] z)) = false
  have h1 : lowc 'h' = 'h' := by decide
  rw [h1, decide_eq_false hd]
  simp

lemma cmdVrrp_fail (s : Str) (h : startsWithCI tokShow s = false) : cmdVrrp s = none := by
  rw [cmdVrrp]
  exact pSeq_none _ _ _ (by simp [litCI, h])

lemma cmdRsvp6_fail (s : Str) (h : startsWithCI tokShow s = false) : cmdRsvp6 s = none := by
  rw [cmdRsvp6]
  exact pSeq_none _ _ _ (by simp [litCI, h])

lemma cmdBare19_fail (s : Str) (h : startsWithCI tokShow s = false) : cmdBare19 s = none := by
  rw [cmdBare19]
  exact pSeq_none _ _ _ (by simp [litCI, h])

lemma cmdArp_fail (s : Str) (h : startsWithCI tokShow s = false) : cmdArp s = none := by
  rw [cmdArp]
  exact pSeq_none _ _ _ (by simp [litCI, h])

lemma totalPatCI_fail (s : Str) (h : startsWithCI tokTotal s = false) : totalPatCI s = none := by
  rw [totalPatCI]
  exact pSeq_none _ _ _ (by simp [litCI, h])

/-- Skipping the five characters of the prompt prefix `a@b> `: none can
start a (case-insensitive) `show`. -/
lemma findMatchPre_skip_preTok (m : M)
    (hm : ∀ s, startsWithCI tokShow s = false → m s = none) (z : Str) :
    findMatchPre m (preTok ++ z)
      = (findMatchPre m z).map (fun p => (preTok ++ p.1, p.2.1, p.2.2)) := by
  have h1 : ∀ (c : Char) (w : Str), ¬(lowc c = 's') → m (c :: w) = none :=
    fun c w hc => hm _ (swShow_head c w hc)
  show findMatchPre m ('a' :: '@' :: 'b' :: '>' :: ' ' :: z) = _
  rw [findMatchPre_cons_none m 'a' _ (h1 _ _ (by decide)),
      findMatchPre_cons_none m '@' _ (h1 _ _ (by decide)),
      findMatchPre_cons_none m 'b' _ (h1 _ _ (by decide)),
      findMatchPre_cons_none m '>' _ (h1 _ _ (by decide)),
      findMatchPre_cons_none m ' ' _ (h1 _ _ (by decide))]
  cases findMatchPre m z <;> simp [preTok]

/-- Skipping a whole line that starts at a position where the matcher was
already seen to fail, whose tail contains no `show`. -/
lemma findMatchPre_skip_special_line (m : M)
    (hm : ∀ s, startsWithCI tokShow s = false → m s = none)
    (c : Char) (lt z : Str)
    (hspec : m (c :: (lt ++ '\n' :: z)) = none)
    (hl : containsCI tokShow lt = false) :
    findMatchPre m (c :: (lt ++ '\n' :: z))
      = (findMatchPre m z).map (fun p => (c :: (lt ++ '\n' :: p.1), p.2.1, p.2.2)) := by
  rw [findMatchPre_cons_none m c _ hspec,
      findMatchPre_skip_line m tokShow hm (by decide) (by decide) lt hl z]
  cases findMatchPre m z <;> rfl

/-! ### Prompt detection and the lazy span -/

lemma promptHead_append_nl (l z : Str) :
    promptHead (l ++ '\n' :: z) = promptHead l := by
  have h : (l ++ '\n' :: z).takeWhile (fun c => !isPySpace c)
      = l.takeWhile (fun c => !isPySpace c) :=
    takeWhile_append_stop _ '\n' (by decide) l z
  simp only [promptHead, h]

lemma splitPrompt_through_line (l : Str) (hl : l.contains '\n' = false) (z : Str) :
    splitPrompt (l ++ z) = (l ++ (splitPrompt z).1, (splitPrompt z).2) := by
  induction l with
  | nil => simp
  | cons c tl ih =>
    have hc : ¬(c = '\n') := by
      intro h; subst h; simp [List.contains_cons] at hl
    have htl : tl.contains '\n' = false := by
      have : '\n' ∉ tl := fun hm => by simp [List.contains_cons, hm] at hl
      simpa using this
    rw [List.cons_append, splitPrompt]
    simp [hc, ih htl]

lemma splitPrompt_block (body : List Str) (p0rest : Str)
    (hbody : ∀ l ∈ body, cleanLine l = true) (hne : body ≠ [])
    (hp : promptHead p0rest = true) :
    splitPrompt ('\n' :: (joinNlR body ++ p0rest)) = ('\n' :: joinNlR body, p0rest) := by
  induction body with
  | nil => cases hne rfl
  | cons l rest ih =>
    have hcl := hbody l (List.mem_cons_self l rest)
    simp only [cleanLine, Bool.and_eq_true, Bool.not_eq_true'] at hcl
    have hnl : l.contains '\n' = false := hcl.1.2
    have hnp : promptHead l = false := hcl.2
    have e : joinNlR (l :: rest) ++ p0rest = l ++ '\n' :: (joinNlR rest ++ p0rest) := by
      simp [joinNlR]
    have hph : promptHead (l ++ '\n' :: (joinNlR rest ++ p0rest)) = false := by
      rw [promptHead_append_nl]; exact hnp
    rw [e, splitPrompt]
    rw [hph]
    simp only [Bool.and_false, Bool.false_eq_true, if_false]
    rw [splitPrompt_through_line l hnl]
    cases rest with
    | nil =>
      rw [show joinNlR ([] : List Str) ++ p0rest = p0rest from rfl, splitPrompt]
      simp [hp, joinNlR]
    | cons r rs =>
      rw [ih (fun x hx => hbody x (List.mem_cons_of_mem l hx)) (by simp)]
      simp [joinNlR]

/-! ### Lines and joins -/

lemma joinNl_concat (ls : List Str) (b : Str) (hne : ls ≠ []) :
    joinNl (ls ++ [b]) = joinNl ls ++ '\n' :: b := by
  induction ls with
  | nil => cases hne rfl
  | cons l rest ih =>
    cases rest with
    | nil => rfl
    | cons r rs =>
      have e1 : joinNl ((l :: r :: rs) ++ [b]) = l ++ '\n' :: joinNl ((r :: rs) ++ [b]) := rfl
      have e2 : joinNl (l :: r :: rs) = l ++ '\n' :: joinNl (r :: rs) := rfl
      rw [e1, ih (by simp), e2]
      simp

lemma splitNl_joinNl (ls : List Str) (h : ∀ l ∈ ls, l.contains '\n' = false)
    (hne : ls ≠ []) : splitNl (joinNl ls) = ls := by
  induction ls with
  | nil => cases hne rfl
  | cons l rest ih =>
    cases rest with
    | nil => exact splitNl_no_nl l (h l (List.mem_cons_self l []))
    | cons r rs =>
      have e : joinNl (l :: r :: rs) = l ++ '\n' :: joinNl (r :: rs) := rfl
      rw [e, splitNl_append_line l (h l (List.mem_cons_self l _)) _,
          ih (fun x hx => h x (List.mem_cons_of_mem l hx)) (by simp)]

lemma headNonWs_joinNl (l : Str) (rest : List Str) (h : headNonWs l = true) :
    headNonWs (joinNl (l :: rest)) = true := by
  cases rest with
  | nil => exact h
  | cons r rs =>
    have e : joinNl (l :: r :: rs) = l ++ '\n' :: joinNl (r :: rs) := rfl
    rw [e]
    exact headNonWs_append _ _ h

lemma lastNonWs_joinNl (ls : List Str) (h : ∀ l ∈ ls, lastNonWs l = true)
    (hne : ls ≠ []) : lastNonWs (joinNl ls) = true := by
  induction ls with
  | nil => cases hne rfl
  | cons l rest ih =>
    cases rest with
    | nil => exact h l (List.mem_cons_self l [])
    | cons r rs =>
      have hrec := ih (fun x hx => h x (List.mem_cons_of_mem l hx)) (by simp)
      have e : joinNl (l :: r :: rs) = (l ++ ['\n']) ++ joinNl (r :: rs) := by
        rw [show joinNl (l :: r :: rs) = l ++ '\n' :: joinNl (r :: rs) from rfl]
        simp
      rw [e]
      refine lastNonWs_append _ _ ?_ hrec
      intro hh
      rw [hh] at hrec
      simp [lastNonWs] at hrec

/-- The shared post-processing on a command line followed by a tidy block:
the command line is removed, and the **last body line** falls to
`rsplit("\n", 1)[0]`. -/
lemma stripRsplitBody_block (cmd : Str) (body : List Str)
    (hch : headNonWs cmd = true) (hcn : cmd.contains '\n' = false)
    (hbody : ∀ l ∈ body, cleanLine l = true)
    (hlen : 2 ≤ body.length) :
    stripRsplitBody (cmd ++ '\n' :: joinNlR body) = some (joinNl body.dropLast) := by
  rcases List.eq_nil_or_concat body with hnil | ⟨ini, lb, hb⟩
  · rw [hnil] at hlen; simp at hlen
  subst hb
  have hini : ini ≠ [] := by
    intro h
    rw [h] at hlen
    simp [List.concat] at hlen
  have hclean : ∀ l ∈ ini, cleanLine l = true := by
    intro x hx
    exact hbody x (by simp [List.concat_eq_append]; exact Or.inl hx)
  have hlb := hbody lb (by simp [List.concat_eq_append])
  simp only [cleanLine, Bool.and_eq_true, Bool.not_eq_true'] at hlb
  have hlastAll : ∀ l ∈ ini.concat lb, lastNonWs l = true := by
    intro x hx
    have := hbody x hx
    simp only [cleanLine, Bool.and_eq_true, Bool.not_eq_true'] at this
    exact this.1.1.2
  have hnlAll : ∀ l ∈ ini, l.contains '\n' = false := by
    intro x hx
    have := hclean x hx
    simp only [cleanLine, Bool.and_eq_true, Bool.not_eq_true'] at this
    exact this.1.2
  rw [List.concat_eq_append] at hlastAll ⊢
  have hjr : joinNlR (ini ++ [lb]) = joinNl (ini ++ [lb]) ++ ['\n'] :=
    joinNlR_eq _ (by simp)
  have hjc : joinNl (ini ++ [lb]) = joinNl ini ++ '\n' :: lb := joinNl_concat ini lb hini
  have hstrip : pyStrip (cmd ++ '\n' :: joinNlR (ini ++ [lb]))
      = cmd ++ '\n' :: joinNl (ini ++ [lb]) := by
    rw [hjr, pyStrip, pyLStrip_noop _ (headNonWs_append cmd _ hch)]
    have e : cmd ++ '\n' :: (joinNl (ini ++ [lb]) ++ ['\n'])
        = (cmd ++ '\n' :: joinNl (ini ++ [lb])) ++ ['\n'] := by simp
    rw [e, pyRStrip_append_one_ws _ '\n' (by decide), pyRStrip_noop]
    have e2 : cmd ++ '\n' :: joinNl (ini ++ [lb]) = (cmd ++ ['\n']) ++ joinNl (ini ++ [lb]) := by
      simp
    rw [e2]
    refine lastNonWs_append _ _ ?_ (lastNonWs_joinNl _ hlastAll (by simp))
    intro hh
    have := lastNonWs_joinNl (ini ++ [lb]) hlastAll (by simp)
    rw [hh] at this
    simp [lastNonWs] at this
  have hrs : rsplitDropLast (cmd ++ '\n' :: joinNl (ini ++ [lb]))
      = cmd ++ '\n' :: joinNl ini := by
    have e : cmd ++ '\n' :: joinNl (ini ++ [lb])
        = (cmd ++ '\n' :: joinNl ini) ++ '\n' :: lb := by
      rw [hjc]; simp
    rw [e, rsplitDropLast_spec _ _ hlb.1.2]
  have hsp : splitNl (cmd ++ '\n' :: joinNl ini) = cmd :: ini := by
    rw [splitNl_append_line cmd hcn, splitNl_joinNl ini hnlAll hini]
  rw [stripRsplitBody, hstrip, hrs, hsp]
  have hlen2 : 1 < (cmd :: ini).length := by
    simp only [List.length_cons]
    cases ini with
    | nil => cases hini rfl
    | cons a b => simp
  rw [if_pos hlen2]
  rcases (List.exists_cons_of_ne_nil hini) with ⟨i0, irest, hi0⟩
  have hh : headNonWs (joinNl ini) = true := by
    rw [hi0]
    refine headNonWs_joinNl i0 irest ?_
    have := hclean i0 (by rw [hi0]; exact List.mem_cons_self _ _)
    simp only [cleanLine, Bool.and_eq_true, Bool.not_eq_true'] at this
    exact this.1.1.1
  have hl2 : lastNonWs (joinNl ini) = true :=
    lastNonWs_joinNl ini (fun x hx => by
      have := hclean x hx
      simp only [cleanLine, Bool.and_eq_true, Bool.not_eq_true'] at this
      exact this.1.1.2) hini
  rw [show (cmd :: ini).drop 1 = ini from rfl,
      pyStrip_noop _ hh hl2, List.dropLast_concat]

/-- The common extractor pipeline on any transcript whose first command
match is followed by a tidy body block closed by a prompt line. -/
lemma stdExtract_of_findMatch (m : M) (T pre cmd : Str) (body : List Str) (p0rest : Str)
    (hf : findMatchPre m T = some (pre, cmd, '\n' :: (joinNlR body ++ p0rest)))
    (hch : headNonWs cmd = true) (hcn : cmd.contains '\n' = false)
    (hbody : ∀ l ∈ body, cleanLine l = true)
    (hlen : 2 ≤ body.length)
    (hp : promptHead p0rest = true) :
    stdExtract m T = some (joinNl body.dropLast) := by
  have hne : body ≠ [] := by
    intro h
    rw [h] at hlen
    simp at hlen
  rw [stdExtract, hf]
  simp only []
  rw [splitPrompt_block body p0rest hbody hne hp]
  exact stripRsplitBody_block cmd body hch hcn hbody hlen

lemma findMatchPre_at_head (m : M) (s co r : Str) (hne : s ≠ []) (h : m s = some (co, r)) :
    findMatchPre m s = some ([], co, r) := by
  cases s with
  | nil => cases hne rfl
  | cons c tl => exact findMatchPre_cons_some m c tl co r h

/-- The first match of `cmdVrrp` inside a standard transcript sits right
after the prompt prefix and consumes exactly the command text. -/
lemma findMatchPre_vrrp_std (body : List Str) (p0rest : Str) :
    findMatchPre cmdVrrp (mkStdTranscript vrrpCmdTok body p0rest)
      = some (preTok, vrrpCmdTok, '\n' :: (joinNlR body ++ p0rest)) := by
  rw [mkStdTranscript]
  have e : preTok ++ vrrpCmdTok ++ '\n' :: (joinNlR body ++ p0rest)
      = preTok ++ (vrrpCmdTok ++ '\n' :: (joinNlR body ++ p0rest)) := by simp
  rw [e, findMatchPre_skip_preTok cmdVrrp cmdVrrp_fail,
      findMatchPre_at_head _ _ _ _ (by simp [vrrpCmdTok]) (cmdVrrp_at _)]
  simp

/-- **C2** (amended): on every standard transcript whose command block is
a tidy multi-line body closed by a prompt line, the extractor returns the
body *without its last line*: `rsplit("\n", 1)[0]` runs after the prompt
was already excluded, so it deletes the last non-blank output line, not
prompt residue. -/
theorem extractor_drops_last_body_line (body : List Str) (p0rest : Str)
    (hb : ∀ l ∈ body, cleanLine l = true)
    (hlen : 2 ≤ body.length)
    (hp : promptHead p0rest = true) :
    extract_show_vrrp_summary_output_2 (mkStdTranscript vrrpCmdTok body p0rest)
      = some (joinNl body.dropLast) :=
  stdExtract_of_findMatch cmdVrrp _ preTok vrrpCmdTok body p0rest
    (findMatchPre_vrrp_std body p0rest) (by decide) (by decide) hb hlen hp

/-- Witness: a concrete two-line block, the extracted segment is the
header line only. -/
theorem extractor_drops_last_body_line_witness :
    extract_show_vrrp_summary_output_2 (mkStdTranscript vrrpCmdTok [c2Hdr, c2Entry] promptEndTok)
      = some (joinNl [c2Hdr]) :=
  extractor_drops_last_body_line [c2Hdr, c2Entry] promptEndTok
    (by decide) (by decide) (by decide)

/-- **C2** (counterexample): on `c2Transcript` the claim promises the
segment `HeaderLine\nEntryB`; the code returns `HeaderLine`, silently
dropping the final non-blank body line. -/
theorem last_body_line_lost_counterexample :
    extract_show_vrrp_summary_output_2 c2Transcript = some c2Hdr ∧
    extract_show_vrrp_summary_output_2 c2Transcript ≠ some c2Expected := by
  constructor
  · decide
  · decide

lemma finditerAux_of_none (m : M) (fuel : Nat) (t : Str)
    (h : findMatchPre m t = none) : finditerAux m fuel t = [] := by
  cases fuel with
  | zero => rfl
  | succ f => simp [finditerAux, h]

/-- **C8**: a signature with no occurrence yields an absent (`None`)
segment from each extractor — never an error value — and the
second-occurrence extractor also yields `None` when only one occurrence
exists. -/
theorem extract_absent_is_none (t t2 p co r : Str)
    (h6 : ∀ i, i ≤ t.length → cmdRsvp6 (t.drop i) = none)
    (h19 : ∀ i, i ≤ t.length → cmdBare19 (t.drop i) = none)
    (h2a : findMatchPre cmdBare19 t2 = some (p, co, r))
    (h2b : ∀ i, i ≤ r.length → cmdBare19 (r.drop i) = none) :
    extract_show_rsvp_session_output_6 t = none ∧
    extract_show_rsvp_session_first_output_19 t = none ∧
    extract_show_rsvp_session_second_output_20 t = none ∧
    extract_show_rsvp_session_second_output_20 t2 = none := by
  have hf6 : findMatchPre cmdRsvp6 t = none := findMatchPre_eq_none _ _ h6
  have hf19 : findMatchPre cmdBare19 t = none := findMatchPre_eq_none _ _ h19
  have hfr : findMatchPre cmdBare19 r = none := findMatchPre_eq_none _ _ h2b
  refine ⟨?_, ?_, ?_, ?_⟩
  · rw [extract_show_rsvp_session_output_6, stdExtract, hf6]
  · rw [extract_show_rsvp_session_first_output_19, stdExtract, hf19]
  · rw [extract_show_rsvp_session_second_output_20,
        finditerAux_of_none _ _ _ hf19]
  · rw [extract_show_rsvp_session_second_output_20]
    have e : t2.length + 1 = Nat.succ t2.length := rfl
    rw [e, finditerAux, h2a]
    dsimp only
    rw [finditerAux_of_none _ _ _ hfr]

/-- Witness: a concrete command-free transcript and a concrete
one-occurrence transcript. -/
theorem extract_absent_is_none_witness :
    extract_show_rsvp_session_output_6 c8NoCmd = none ∧
    extract_show_rsvp_session_first_output_19 c8NoCmd = none ∧
    extract_show_rsvp_session_second_output_20 c8NoCmd = none ∧
    extract_show_rsvp_session_second_output_20 c8OneBare = none :=
  extract_absent_is_none c8NoCmd c8OneBare c8P bare19Tok c8R
    (by decide) (by decide) (by decide) (by decide)

lemma rsvpFamLine_parts (l : Str) (h : rsvpFamLine l = true) :
    cleanLine l = true ∧ containsCI tokShow l = false ∧ l.contains '|' = false := by
  simp only [rsvpFamLine, Bool.and_eq_true, Bool.not_eq_true'] at h
  exact ⟨h.1.1, h.1.2, h.2⟩

lemma famLine_head (l : Str) (h : rsvpFamLine l = true) :
    ∃ c z', l = c :: z' ∧ isPySpace c = false ∧ ¬(c = '|') := by
  obtain ⟨hcl, -, hpipe⟩ := rsvpFamLine_parts l h
  simp only [cleanLine, Bool.and_eq_true, Bool.not_eq_true'] at hcl
  have hh : headNonWs l = true := hcl.1.1.1
  cases l with
  | nil => simp [headNonWs] at hh
  | cons c z' =>
    refine ⟨c, z', rfl, by simpa [headNonWs] using hh, ?_⟩
    intro hcp
    subst hcp
    simp [List.contains_cons] at hpipe

lemma headNonWs_joinNlR_append (l : Str) (rest : List Str) (X : Str)
    (h : headNonWs l = true) :
    headNonWs (joinNlR (l :: rest) ++ X) = true := by
  have e : joinNlR (l :: rest) ++ X = l ++ ('\n' :: (joinNlR rest ++ X)) := by
    simp [joinNlR]
  rw [e]
  exact headNonWs_append _ _ h

lemma promptHead_preTok (X : Str) : promptHead (preTok ++ X) = true := rfl

lemma findMatchPre_at_bare19 (z : Str) (hz : headNonWs z = true) :
    findMatchPre cmdBare19 (bare19Tok ++ '\n' :: z)
      = some ([], bare19Tok, '\n' :: z) := by
  cases z with
  | nil => simp [headNonWs] at hz
  | cons c z' =>
    exact findMatchPre_at_head _ _ _ _ (by simp [bare19Tok])
      (bare19_match_at c z' (by simpa [headNonWs] using hz))

lemma findMatchPre_at_cmd6 (z : Str) :
    findMatchPre cmdRsvp6 (rsvp6Tok ++ z) = some ([], rsvp6Tok, z) :=
  findMatchPre_at_head _ _ _ _ (by simp [rsvp6Tok]) (cmd6_at z)

/-- Skipping the whole bare command line when searching for the piped
pattern, possible because the next line neither is blank nor starts with
`|`. -/
lemma fmp_cmd6_skip_bareline (c : Char) (z' : Str)
    (hc : isPySpace c = false) (hp : ¬(c = '|')) (z : Str) (hz : z = c :: z') :
    findMatchPre cmdRsvp6 (bare19Tok ++ '\n' :: z)
      = (findMatchPre cmdRsvp6 z).map
          (fun p => ('s' :: (bareTail ++ '\n' :: p.1), p.2.1, p.2.2)) := by
  subst hz
  have e : bare19Tok ++ '\n' :: c :: z' = 's' :: (bareTail ++ '\n' :: (c :: z')) := rfl
  rw [e, findMatchPre_skip_special_line cmdRsvp6 cmdRsvp6_fail 's' bareTail _
      (by rw [← e]; exact cmd6_not_match_bare_line c z' hc hp) (by decide)]

/-- Skipping the whole piped command line when searching for the bare
end-anchored pattern: `\s*$` fails at the `|`. -/
lemma fmp_bare19_skip_pipedline (z : Str) :
    findMatchPre cmdBare19 (rsvp6Tok ++ '\n' :: z)
      = (findMatchPre cmdBare19 z).map
          (fun p => ('s' :: (rsvp6Tail ++ '\n' :: p.1), p.2.1, p.2.2)) := by
  have e : rsvp6Tok ++ '\n' :: z = 's' :: (rsvp6Tail ++ '\n' :: z) := rfl
  rw [e, findMatchPre_skip_special_line cmdBare19 cmdBare19_fail 's' rsvp6Tail _
      (by rw [← e]; exact cmdBare19_not_at_piped z) (by decide)]

lemma fmp_bare19_bareFirst (b1 b2 : List Str) (hne : b1 ≠ [])
    (hb1 : ∀ l ∈ b1, rsvpFamLine l = true) :
    ∃ pre, findMatchPre cmdBare19 (mkBareFirst b1 b2)
      = some (pre, bare19Tok,
          '\n' :: (joinNlR b1 ++ (preTok ++ (rsvp6Tok ++ '\n' :: (joinNlR b2 ++ promptEndTok))))) := by
  have e : mkBareFirst b1 b2 = preTok ++ (bare19Tok ++ '\n' ::
      (joinNlR b1 ++ (preTok ++ (rsvp6Tok ++ '\n' :: (joinNlR b2 ++ promptEndTok))))) := by
    rw [mkBareFirst]
    simp
  obtain ⟨l0, rest1, hb⟩ := List.exists_cons_of_ne_nil hne
  obtain ⟨c, z', hl0, hc, -⟩ :=
    famLine_head l0 (hb1 l0 (by rw [hb]; exact List.mem_cons_self _ _))
  have hz : headNonWs (joinNlR b1 ++ (preTok ++ (rsvp6Tok ++ '\n' :: (joinNlR b2 ++ promptEndTok)))) = true := by
    rw [hb]
    exact headNonWs_joinNlR_append l0 rest1 _ (by rw [hl0]; simpa [headNonWs] using hc)
  rw [e, findMatchPre_skip_preTok cmdBare19 cmdBare19_fail, findMatchPre_at_bare19 _ hz]
  exact ⟨_, rfl⟩

lemma fmp_cmd6_bareFirst (b1 b2 : List Str) (hne : b1 ≠ [])
    (hb1 : ∀ l ∈ b1, rsvpFamLine l = true) :
    ∃ pre, findMatchPre cmdRsvp6 (mkBareFirst b1 b2)
      = some (pre, rsvp6Tok, '\n' :: (joinNlR b2 ++ promptEndTok)) := by
  have e : mkBareFirst b1 b2 = preTok ++ (bare19Tok ++ '\n' ::
      (joinNlR b1 ++ (preTok ++ (rsvp6Tok ++ '\n' :: (joinNlR b2 ++ promptEndTok))))) := by
    rw [mkBareFirst]
    simp
  obtain ⟨l0, rest1, hb⟩ := List.exists_cons_of_ne_nil hne
  obtain ⟨c, z', hl0, hc, hp⟩ :=
    famLine_head l0 (hb1 l0 (by rw [hb]; exact List.mem_cons_self _ _))
  have hhead : joinNlR b1 ++ (preTok ++ (rsvp6Tok ++ '\n' :: (joinNlR b2 ++ promptEndTok)))
      = c :: (z' ++ '\n' :: (joinNlR rest1 ++ (preTok ++ (rsvp6Tok ++ '\n' :: (joinNlR b2 ++ promptEndTok))))) := by
    rw [hb, hl0]
    simp [joinNlR]
  rw [e, findMatchPre_skip_preTok cmdRsvp6 cmdRsvp6_fail,
      fmp_cmd6_skip_bareline c _ hc hp _ hhead,
      findMatchPre_skip_block cmdRsvp6 tokShow cmdRsvp6_fail (by decide) (by decide)
        b1 (fun l hl => (rsvpFamLine_parts l (hb1 l hl)).2.1) _,
      findMatchPre_skip_preTok cmdRsvp6 cmdRsvp6_fail,
      findMatchPre_at_cmd6 ('\n' :: (joinNlR b2 ++ promptEndTok))]
  simp only [Option.map_some']
  exact ⟨_, rfl⟩

lemma fmp_cmd6_pipedFirst (b1 b2 : List Str) :
    ∃ pre, findMatchPre cmdRsvp6 (mkPipedFirst b1 b2)
      = some (pre, rsvp6Tok,
          '\n' :: (joinNlR b2 ++ (preTok ++ (bare19Tok ++ '\n' :: (joinNlR b1 ++ promptEndTok))))) := by
  have e : mkPipedFirst b1 b2 = preTok ++ (rsvp6Tok ++
      ('\n' :: (joinNlR b2 ++ (preTok ++ (bare19Tok ++ '\n' :: (joinNlR b1 ++ promptEndTok)))))) := by
    rw [mkPipedFirst]
    simp
  rw [e, findMatchPre_skip_preTok cmdRsvp6 cmdRsvp6_fail,
      findMatchPre_at_cmd6 ('\n' :: (joinNlR b2 ++ (preTok ++ (bare19Tok ++ '\n' :: (joinNlR b1 ++ promptEndTok)))))]
  simp only [Option.map_some']
  exact ⟨_, rfl⟩

lemma fmp_bare19_pipedFirst (b1 b2 : List Str) (hne : b1 ≠ [])
    (hb1 : ∀ l ∈ b1, rsvpFamLine l = true)
    (hb2 : ∀ l ∈ b2, rsvpFamLine l = true) :
    ∃ pre, findMatchPre cmdBare19 (mkPipedFirst b1 b2)
      = some (pre, bare19Tok, '\n' :: (joinNlR b1 ++ promptEndTok)) := by
  have e : mkPipedFirst b1 b2 = preTok ++ (rsvp6Tok ++ '\n' ::
      (joinNlR b2 ++ (preTok ++ (bare19Tok ++ '\n' :: (joinNlR b1 ++ promptEndTok))))) := by
    rw [mkPipedFirst]
    simp
  obtain ⟨l0, rest1, hb⟩ := List.exists_cons_of_ne_nil hne
  obtain ⟨c, z', hl0, hc, -⟩ :=
    famLine_head l0 (hb1 l0 (by rw [hb]; exact List.mem_cons_self _ _))
  have hz : headNonWs (joinNlR b1 ++ promptEndTok) = true := by
    rw [hb]
    exact headNonWs_joinNlR_append l0 rest1 _ (by rw [hl0]; simpa [headNonWs] using hc)
  rw [e, findMatchPre_skip_preTok cmdBare19 cmdBare19_fail,
      fmp_bare19_skip_pipedline _,
      findMatchPre_skip_block cmdBare19 tokShow cmdBare19_fail (by decide) (by decide)
        b2 (fun l hl => (rsvpFamLine_parts l (hb2 l hl)).2.1) _,
      findMatchPre_skip_preTok cmdBare19 cmdBare19_fail,
      findMatchPre_at_bare19 _ hz]
  simp only [Option.map_some']
  exact ⟨_, rfl⟩

/-- **C7** (amended): when the output blocks are tidy lines containing
neither `show` nor `|`, each rsvp extractor returns (the
last-line-truncated form of) its own command's output block, in both
orders of the two commands: the `$` anchor keeps the bare pattern off
the piped line, and the absence of `|` in the bare block keeps the piped
pattern off the bare line. -/
theorem prefix_signatures_keep_own_segments (b1 b2 : List Str)
    (h1 : ∀ l ∈ b1, rsvpFamLine l = true) (h2 : ∀ l ∈ b2, rsvpFamLine l = true)
    (hl1 : 2 ≤ b1.length) (hl2 : 2 ≤ b2.length) :
    extract_show_rsvp_session_first_output_19 (mkBareFirst b1 b2) = some (joinNl b1.dropLast) ∧
    extract_show_rsvp_session_output_6 (mkBareFirst b1 b2) = some (joinNl b2.dropLast) ∧
    extract_show_rsvp_session_first_output_19 (mkPipedFirst b1 b2) = some (joinNl b1.dropLast) ∧
    extract_show_rsvp_session_output_6 (mkPipedFirst b1 b2) = some (joinNl b2.dropLast) := by
  have hne1 : b1 ≠ [] := by intro h; rw [h] at hl1; simp at hl1
  have hc1 : ∀ l ∈ b1, cleanLine l = true := fun l hl => (rsvpFamLine_parts l (h1 l hl)).1
  have hc2 : ∀ l ∈ b2, cleanLine l = true := fun l hl => (rsvpFamLine_parts l (h2 l hl)).1
  refine ⟨?_, ?_, ?_, ?_⟩
  · obtain ⟨pre, hf⟩ := fmp_bare19_bareFirst b1 b2 hne1 h1
    exact stdExtract_of_findMatch cmdBare19 _ pre bare19Tok b1 _ hf
      (by decide) (by decide) hc1 hl1 (promptHead_preTok _)
  · obtain ⟨pre, hf⟩ := fmp_cmd6_bareFirst b1 b2 hne1 h1
    exact stdExtract_of_findMatch cmdRsvp6 _ pre rsvp6Tok b2 _ hf
      (by decide) (by decide) hc2 hl2 (by decide)
  · obtain ⟨pre, hf⟩ := fmp_bare19_pipedFirst b1 b2 hne1 h1 h2
    exact stdExtract_of_findMatch cmdBare19 _ pre bare19Tok b1 _ hf
      (by decide) (by decide) hc1 hl1 (by decide)
  · obtain ⟨pre, hf⟩ := fmp_cmd6_pipedFirst b1 b2
    exact stdExtract_of_findMatch cmdRsvp6 _ pre rsvp6Tok b2 _ hf
      (by decide) (by decide) hc2 hl2 (promptHead_preTok _)

/-- Witness: concrete two-line blocks for both commands, both orders. -/
theorem prefix_signatures_keep_own_segments_witness :
    extract_show_rsvp_session_first_output_19 (mkBareFirst [c7L1, c7L2] [c7L3, c7L4])
      = some (joinNl [c7L1, c7L2].dropLast) ∧
    extract_show_rsvp_session_output_6 (mkBareFirst [c7L1, c7L2] [c7L3, c7L4])
      = some (joinNl [c7L3, c7L4].dropLast) ∧
    extract_show_rsvp_session_first_output_19 (mkPipedFirst [c7L1, c7L2] [c7L3, c7L4])
      = some (joinNl [c7L1, c7L2].dropLast) ∧
    extract_show_rsvp_session_output_6 (mkPipedFirst [c7L1, c7L2] [c7L3, c7L4])
      = some (joinNl [c7L3, c7L4].dropLast) :=
  prefix_signatures_keep_own_segments [c7L1, c7L2] [c7L3, c7L4]
    (by decide) (by decide) (by decide) (by decide)

/-- **C7** (counterexample): in `c7Transcript` the piped signature occurs
on no line, yet the piped extractor returns a (nonempty) segment — the
same one the bare extractor returns — because `\s*\|` walks across the
newline into the bare command's own output. -/
theorem piped_extractor_steals_bare_segment_counterexample :
    extract_show_rsvp_session_output_6 c7Transcript = some c7Seg ∧
    extract_show_rsvp_session_first_output_19 c7Transcript = some c7Seg ∧
    (splitNl c7Transcript).all (fun l => !(containsCS rsvp6Tok l)) = true := by
  exact ⟨by decide, by decide, by decide⟩

/-! ### Character classes and token facts for the ARP round trip -/

lemma digit_not_space (c : Char) (h : c.isDigit = true) : isPySpace c = false := by
  rcases hc : isPySpace c with _ | _
  · rfl
  · exfalso
    simp only [isPySpace, Bool.or_eq_true, decide_eq_true_eq] at hc
    rcases hc with ((((rfl|rfl)|rfl)|rfl)|rfl)|rfl <;> simp [Char.isDigit] at h

lemma hexColon_not_space (c : Char) (h : isHexColon c = true) : isPySpace c = false := by
  rcases hc : isPySpace c with _ | _
  · rfl
  · exfalso
    simp only [isPySpace, Bool.or_eq_true, decide_eq_true_eq] at hc
    rcases hc with ((((rfl|rfl)|rfl)|rfl)|rfl)|rfl <;> simp [isHexColon, lowc] at h

lemma headNonWs_all (q : Char → Bool) (hq : ∀ c, q c = true → isPySpace c = false)
    (l : Str) (hl : l.all q = true) (hne : l ≠ []) : headNonWs l = true := by
  cases l with
  | nil => cases hne rfl
  | cons c tl =>
    simp only [List.all_cons, Bool.and_eq_true] at hl
    simp [headNonWs, hq c hl.1]

lemma lastNonWs_all (q : Char → Bool) (hq : ∀ c, q c = true → isPySpace c = false)
    (l : Str) (hl : l.all q = true) (hne : l ≠ []) : lastNonWs l = true := by
  induction l with
  | nil => cases hne rfl
  | cons c tl ih =>
    simp only [List.all_cons, Bool.and_eq_true] at hl
    cases tl with
    | nil => simp [lastNonWs, hq c hl.1]
    | cons b bt =>
      rw [lastNonWs_cons c (b :: bt) (by simp)]
      exact ih hl.2 (by simp)

lemma splitDot_ne_nil (t : Str) : splitDot t ≠ [] := by
  induction t with
  | nil => simp [splitDot]
  | cons c tl ih =>
    rw [splitDot]
    rcases h : splitDot tl with _ | ⟨a, b⟩
    · simp
    · by_cases hc : c = '.' <;> simp [hc]

lemma splitDot_mem (t : Str) (c : Char) (hc : c ∈ t) :
    c = '.' ∨ ∃ p ∈ splitDot t, c ∈ p := by
  induction t with
  | nil => cases hc
  | cons a tl ih =>
    rcases h : splitDot tl with _ | ⟨hd, rest⟩
    · exact absurd h (splitDot_ne_nil tl)
    have epos : a = '.' → splitDot (a :: tl) = [] :: hd :: rest := by
      intro ha
      rw [splitDot, h]
      dsimp only
      rw [if_pos ha]
    have eneg : ¬(a = '.') → splitDot (a :: tl) = (a :: hd) :: rest := by
      intro ha
      rw [splitDot, h]
      dsimp only
      rw [if_neg ha]
    rcases List.mem_cons.mp hc with rfl | hmem
    · by_cases ha : c = '.'
      · exact Or.inl ha
      · refine Or.inr ⟨c :: hd, ?_, List.mem_cons_self _ _⟩
        rw [eneg ha]
        exact List.mem_cons_self _ _
    · rcases ih hmem with hdot | ⟨p, hp, hcp⟩
      · exact Or.inl hdot
      · rw [h] at hp
        by_cases ha : a = '.'
        · refine Or.inr ⟨p, ?_, hcp⟩
          rw [epos ha]
          exact List.mem_cons_of_mem [] hp
        · rcases List.mem_cons.mp hp with rfl | hr
          · refine Or.inr ⟨a :: p, ?_, List.mem_cons_of_mem a hcp⟩
            rw [eneg ha]
            exact List.mem_cons_self _ _
          · refine Or.inr ⟨p, ?_, hcp⟩
            rw [eneg ha]
            exact List.mem_cons_of_mem _ hr

lemma isIp4_chars (t : Str) (h : isIp4 t = true) :
    ∀ c ∈ t, c.isDigit = true ∨ c = '.' := by
  intro c hc
  rcases splitDot_mem t c hc with hdot | ⟨p, hp, hcp⟩
  · exact Or.inr hdot
  rw [isIp4] at h
  rcases hs : splitDot t with _ | ⟨a, r1⟩ <;> rw [hs] at h hp
  · cases hp
  rcases r1 with _ | ⟨b, r2⟩
  · simp at h
  rcases r2 with _ | ⟨x, r3⟩
  · simp at h
  rcases r3 with _ | ⟨y, r4⟩
  · simp at h
  rcases r4 with _ | ⟨z, r5⟩
  · simp only [Bool.and_eq_true, Bool.not_eq_true'] at h
    have hall : p.all Char.isDigit = true := by
      rcases List.mem_cons.mp hp with rfl | hp1
      · exact h.1.1.1.1.1.1.2
      rcases List.mem_cons.mp hp1 with rfl | hp2
      · exact h.1.1.1.1.2
      rcases List.mem_cons.mp hp2 with rfl | hp3
      · exact h.1.1.2
      rcases List.mem_cons.mp hp3 with rfl | hp4
      · exact h.2
      · cases hp4
    exact Or.inl ((List.all_eq_true.mp hall) c hcp)
  · simp at h

/-! ### Case-sensitive search machinery for `Total entries:` -/

lemma startsWithCS_append_nl (w a b : Str)
    (hw : w.all (fun c => !(c = '\n')) = true) :
    startsWithCS w (a ++ '\n' :: b) = startsWithCS w a := by
  induction w generalizing a with
  | nil => rfl
  | cons wc ws ih =>
    simp only [List.all_cons, Bool.and_eq_true, Bool.not_eq_true',
               decide_eq_false_iff_not] at hw
    cases a with
    | nil =>
      show (decide ('\n' = wc) && startsWithCS ws b) = startsWithCS (wc :: ws) []
      have h2 : decide ('\n' = wc) = false := by
        rw [decide_eq_false_iff_not]
        intro h3
        exact hw.1 h3.symm
      rw [h2]
      rfl
    | cons ac as =>
      show (decide (ac = wc) && startsWithCS ws (as ++ '\n' :: b))
          = (decide (ac = wc) && startsWithCS ws as)
      rw [ih as hw.2]

lemma startsWithCS_nl_false (w : Str)
    (hw : w.all (fun c => !(c = '\n')) = true) (hw0 : w ≠ []) (z : Str) :
    startsWithCS w ('\n' :: z) = false := by
  cases w with
  | nil => cases hw0 rfl
  | cons wc ws =>
    simp only [List.all_cons, Bool.and_eq_true, Bool.not_eq_true',
               decide_eq_false_iff_not] at hw
    show (decide ('\n' = wc) && startsWithCS ws z) = false
    have h2 : decide ('\n' = wc) = false := by
      rw [decide_eq_false_iff_not]
      intro h3
      exact hw.1 h3.symm
    rw [h2]
    rfl

lemma startsWithCS_imp_CI (w s : Str) (h : startsWithCS w s = true) :
    startsWithCI w s = true := by
  induction w generalizing s with
  | nil => rfl
  | cons wc ws ih =>
    cases s with
    | nil => simp [startsWithCS] at h
    | cons c cs =>
      simp only [startsWithCS, Bool.and_eq_true, decide_eq_true_eq] at h
      simp only [startsWithCI, Bool.and_eq_true, decide_eq_true_eq]
      exact ⟨by rw [h.1], ih cs h.2⟩

lemma startsWithCI_append_word (w1 w2 s : Str)
    (h : startsWithCI (w1 ++ w2) s = true) : startsWithCI w1 s = true := by
  induction w1 generalizing s with
  | nil => rfl
  | cons wc ws ih =>
    cases s with
    | nil => simp [startsWithCI] at h
    | cons c cs =>
      simp only [List.cons_append, startsWithCI, Bool.and_eq_true] at h ⊢
      exact ⟨h.1, ih cs h.2⟩

lemma containsCS_sub_CI (w1 w2 l : Str) (h : containsCI w1 l = false)
    (hne : w1 ≠ []) : containsCS (w1 ++ w2) l = false := by
  induction l with
  | nil =>
    cases w1 with
    | nil => cases hne rfl
    | cons a b => rfl
  | cons c tl ih =>
    rw [containsCI] at h
    simp only [Bool.or_eq_false_iff] at h
    rw [containsCS]
    simp only [Bool.or_eq_false_iff]
    refine ⟨?_, ih h.2⟩
    rcases hsw : startsWithCS (w1 ++ w2) (c :: tl) with _ | _
    · rfl
    · exfalso
      have h2 := startsWithCI_append_word w1 w2 _ (startsWithCS_imp_CI _ _ hsw)
      rw [h.1] at h2
      cases h2

lemma totalCapture_fail (s : Str) (h : startsWithCS tokTotalEntriesCS s = false) :
    totalCapture s = none := by
  simp [totalCapture, litCS, h]

lemma findTotalCS_cons (c : Char) (tl : Str) (h : totalCapture (c :: tl) = none) :
    findTotalCS (c :: tl) = findTotalCS tl := by
  simp [findTotalCS, h]

lemma findTotalCS_at_head (s : Str) (n : Nat) (hne : s ≠ [])
    (h : totalCapture s = some n) : findTotalCS s = some n := by
  cases s with
  | nil => cases hne rfl
  | cons c tl => simp [findTotalCS, h]

lemma findTotalCS_skip_line (l : Str) (hl : containsCS tokTotalEntriesCS l = false)
    (z : Str) : findTotalCS (l ++ '\n' :: z) = findTotalCS z := by
  induction l with
  | nil =>
    rw [List.nil_append,
        findTotalCS_cons _ _ (totalCapture_fail _
          (startsWithCS_nl_false _ (by decide) (by decide) z))]
  | cons c tl ih =>
    rw [containsCS] at hl
    simp only [Bool.or_eq_false_iff] at hl
    have hfail : totalCapture (c :: (tl ++ '\n' :: z)) = none :=
      totalCapture_fail _ (by
        rw [← List.cons_append, startsWithCS_append_nl _ _ _ (by decide)]
        exact hl.1)
    rw [List.cons_append, findTotalCS_cons _ _ hfail, ih hl.2]

lemma findTotalCS_skip_block (ls : List Str)
    (hb : ∀ l ∈ ls, containsCS tokTotalEntriesCS l = false) (z : Str) :
    findTotalCS (joinNlR ls ++ z) = findTotalCS z := by
  induction ls with
  | nil => rfl
  | cons l rest ih =>
    have e : joinNlR (l :: rest) ++ z = l ++ '\n' :: (joinNlR rest ++ z) := by
      simp [joinNlR]
    rw [e, findTotalCS_skip_line l (hb l (List.mem_cons_self l rest)) _,
        ih (fun x hx => hb x (List.mem_cons_of_mem l hx))]

lemma totalCapture_at (d : Str) (hd : d.all Char.isDigit = true) (hne : d ≠ []) :
    totalCapture (tokTotalEntriesCS ++ ' ' :: d) = some (digitsVal d) := by
  rw [totalCapture, litCS_self tokTotalEntriesCS (' ' :: d)]
  simp only [Option.bind_eq_bind, Option.some_bind]
  rw [wsStar_one _ (headNonWs_all Char.isDigit digit_not_space d hd hne)]
  simp only [Option.some_bind]
  rw [digitsPlus, runPlus_end Char.isDigit d hd hne]
  rfl

lemma joinNl_eq_joinNlR_append (ls : List Str) (last : Str) :
    joinNl (ls ++ [last]) = joinNlR ls ++ last := by
  induction ls with
  | nil => rfl
  | cons l rest ih =>
    have e1 : joinNl ((l :: rest) ++ [last]) = l ++ '\n' :: joinNl (rest ++ [last]) := by
      cases rest with
      | nil => rfl
      | cons r rs => rfl
    rw [e1, ih]
    simp [joinNlR]

lemma splitNl_joinNlR_last (ls : List Str) (last : Str)
    (hls : ∀ l ∈ ls, l.contains '\n' = false) (hlast : last.contains '\n' = false) :
    splitNl (joinNlR ls ++ last) = ls ++ [last] := by
  induction ls with
  | nil => simpa [joinNlR] using splitNl_no_nl last hlast
  | cons l rest ih =>
    have e : joinNlR (l :: rest) ++ last = l ++ '\n' :: (joinNlR rest ++ last) := by
      simp [joinNlR]
    rw [e, splitNl_append_line l (hls l (List.mem_cons_self l rest)) _,
        ih (fun x hx => hls x (List.mem_cons_of_mem l hx))]
    rfl

lemma contains_nl_append (a b : Str) (ha : a.contains '\n' = false)
    (hb : b.contains '\n' = false) : (a ++ b).contains '\n' = false := by
  have ha' : '\n' ∉ a := by simpa using ha
  have hb' : '\n' ∉ b := by simpa using hb
  have : '\n' ∉ a ++ b := by
    intro h
    rcases List.mem_append.mp h with h1 | h1
    · exact ha' h1
    · exact hb' h1
  simpa using this

lemma contains_nl_false_all (q : Char → Bool) (hq : ∀ c, q c = true → isPySpace c = false)
    (l : Str) (hl : l.all q = true) : l.contains '\n' = false := by
  have : '\n' ∉ l := by
    intro hmem
    have h1 := (List.all_eq_true.mp hl) '\n' hmem
    have h2 := hq '\n' h1
    simp [isPySpace] at h2
  simpa using this

/-- The `Total\s+entries:\s*\d+` pattern at the transcript's total line. -/
lemma totalPat_at (d X : Str) (hd : d.all Char.isDigit = true) (hne : d ≠ []) :
    totalPatCI ((totalPrefixTok ++ d) ++ '\n' :: X)
      = some (totalPrefixTok ++ d, '\n' :: X) := by
  have e1 : (totalPrefixTok ++ d) ++ '\n' :: X
      = tokTotal ++ ' ' :: (tokEntriesColon ++ ' ' :: (d ++ '\n' :: X)) := by
    rw [show totalPrefixTok = tokTotal ++ ' ' :: (tokEntriesColon ++ [' ']) from by decide]
    simp
  have hdh : headNonWs (d ++ '\n' :: X) = true :=
    headNonWs_append d _ (headNonWs_all Char.isDigit digit_not_space d hd hne)
  rw [e1, totalPatCI,
      pSeq_some _ _ _ _ _ (litCI_self tokTotal _),
      pSeq_some _ _ _ _ _ (wsPlus_one _ (headNonWs_append tokEntriesColon _ (by decide))),
      pSeq_some _ _ _ _ _ (litCI_self tokEntriesColon _),
      pSeq_some _ _ _ _ _ (wsStar_one _ hdh),
      show digitsPlus (d ++ '\n' :: X) = some (d, '\n' :: X) from
        runPlus_run Char.isDigit d '\n' X hd hne (by decide)]
  simp only [Option.map_some']
  rw [show totalPrefixTok = tokTotal ++ ' ' :: (tokEntriesColon ++ [' ']) from by decide]
  simp

lemma arpScan_cons_none (c : Char) (tl : Str) (h : cmdArp (c :: tl) = none) :
    arpScan (c :: tl) = arpScan tl := by
  simp [arpScan, h]

lemma arpScan_at_head (s co r p tc rest : Str) (hne : s ≠ [])
    (h1 : cmdArp s = some (co, r))
    (h2 : findMatchPre totalPatCI r = some (p, tc, rest)) :
    arpScan s = some (co, p, tc) := by
  cases s with
  | nil => cases hne rfl
  | cons c tl => simp [arpScan, h1, h2]

lemma arpScan_skip_preTok (z : Str) : arpScan (preTok ++ z) = arpScan z := by
  have h1 : ∀ (c : Char) (w : Str), ¬(lowc c = 's') → cmdArp (c :: w) = none :=
    fun c w hc => cmdArp_fail _ (swShow_head c w hc)
  show arpScan ('a' :: '@' :: 'b' :: '>' :: ' ' :: z) = _
  rw [arpScan_cons_none 'a' _ (h1 _ _ (by decide)),
      arpScan_cons_none '@' _ (h1 _ _ (by decide)),
      arpScan_cons_none 'b' _ (h1 _ _ (by decide)),
      arpScan_cons_none '>' _ (h1 _ _ (by decide)),
      arpScan_cons_none ' ' _ (h1 _ _ (by decide))]

/-! ### Tabular-line evaluation for the ARP parser -/

lemma wsPlus_nil : wsPlus [] = none := rfl

lemma nonWsPlus_run (t : Str) (x : Char) (xs : Str)
    (ht : t.all (fun c => !(isPySpace c)) = true) (hne : t ≠ [])
    (hx : isPySpace x = true) :
    nonWsPlus (t ++ x :: xs) = some (t, x :: xs) := by
  rw [nonWsPlus]
  exact runPlus_run _ t x xs ht hne (by rw [hx]; rfl)

lemma nonWsPlus_end (t : Str) (ht : t.all (fun c => !(isPySpace c)) = true)
    (hne : t ≠ []) : nonWsPlus t = some (t, []) := by
  rw [nonWsPlus]
  exact runPlus_end _ t ht hne

lemma nonws_not_space (c : Char) (hc : (fun c => !(isPySpace c)) c = true) :
    isPySpace c = false := by
  simpa using hc

lemma tokSeq_one_eval (s t r : Str) (h : nonWsPlus s = some (t, r)) :
    tokSeq 1 s = some ([t], r) := by
  simp [tokSeq, h]

lemma tokSeq_step (n : Nat) (s t r1 w r2 : Str) (ts : List Str) (r3 : Str)
    (h1 : nonWsPlus s = some (t, r1)) (h2 : wsPlus r1 = some (w, r2))
    (h3 : tokSeq (n + 1) r2 = some (ts, r3)) :
    tokSeq (n + 2) s = some (t :: ts, r3) := by
  show tokSeq (Nat.succ (Nat.succ n)) s = _
  simp [tokSeq, h1, h2, h3]

lemma tokSeq_step_none (n : Nat) (s t r1 : Str)
    (h1 : nonWsPlus s = some (t, r1)) (h2 : wsPlus r1 = none) :
    tokSeq (n + 2) s = none := by
  show tokSeq (Nat.succ (Nat.succ n)) s = none
  simp [tokSeq, h1, h2]

lemma tokSeq_step_inner_none (n : Nat) (s t r1 w r2 : Str)
    (h1 : nonWsPlus s = some (t, r1)) (h2 : wsPlus r1 = some (w, r2))
    (h3 : tokSeq (n + 1) r2 = none) :
    tokSeq (n + 2) s = none := by
  show tokSeq (Nat.succ (Nat.succ n)) s = none
  simp [tokSeq, h1, h2, h3]

lemma tokSeq4_run (t1 t2 t3 t4 : Str)
    (h1 : t1.all (fun c => !(isPySpace c)) = true) (hne1 : t1 ≠ [])
    (h2 : t2.all (fun c => !(isPySpace c)) = true) (hne2 : t2 ≠ [])
    (h3 : t3.all (fun c => !(isPySpace c)) = true) (hne3 : t3 ≠ [])
    (h4 : t4.all (fun c => !(isPySpace c)) = true) (hne4 : t4 ≠ []) :
    tokSeq 4 (t1 ++ ' ' :: (t2 ++ ' ' :: (t3 ++ ' ' :: t4)))
      = some ([t1, t2, t3, t4], []) := by
  have e4 : tokSeq 1 t4 = some ([t4], []) :=
    tokSeq_one_eval _ _ _ (nonWsPlus_end t4 h4 hne4)
  have e3 : tokSeq 2 (t3 ++ ' ' :: t4) = some ([t3, t4], []) :=
    tokSeq_step 0 _ _ _ _ _ _ _
      (nonWsPlus_run t3 ' ' t4 h3 hne3 (by decide))
      (wsPlus_one t4 (headNonWs_all _ nonws_not_space t4 h4 hne4)) e4
  have e2 : tokSeq 3 (t2 ++ ' ' :: (t3 ++ ' ' :: t4)) = some ([t2, t3, t4], []) :=
    tokSeq_step 1 _ _ _ _ _ _ _
      (nonWsPlus_run t2 ' ' _ h2 hne2 (by decide))
      (wsPlus_one _ (headNonWs_append t3 _ (headNonWs_all _ nonws_not_space t3 h3 hne3))) e3
  exact tokSeq_step 2 _ _ _ _ _ _ _
    (nonWsPlus_run t1 ' ' _ h1 hne1 (by decide))
    (wsPlus_one _ (headNonWs_append t2 _ (headNonWs_all _ nonws_not_space t2 h2 hne2))) e2

lemma ne_nil_of_isEmpty_false (l : Str) (h : l.isEmpty = false) : l ≠ [] := by
  intro hh
  rw [hh] at h
  simp at h

lemma isEmpty_false_of_ne (l : Str) (h : l ≠ []) : l.isEmpty = false := by
  cases l with
  | nil => cases h rfl
  | cons c tl => rfl

lemma arpRowOk_parts (r : ArpRow) (h : arpRowOk r = true) :
    r.mac ≠ [] ∧ r.mac.all isHexColon = true ∧ isIp4 r.ip = true ∧
    r.iface ≠ [] ∧ r.iface.all (fun c => !isPySpace c && !(c = ':')) = true ∧
    r.flags ≠ [] ∧ r.flags.all (fun c => !isPySpace c && !(c = ':')) = true ∧
    containsCI tokTotal (renderArpRow r) = false := by
  simp only [arpRowOk, Bool.and_eq_true, Bool.not_eq_true'] at h
  exact ⟨ne_nil_of_isEmpty_false _ h.1.1.1.1.1.1.1, h.1.1.1.1.1.1.2,
         h.1.1.1.1.1.2, ne_nil_of_isEmpty_false _ h.1.1.1.1.2, h.1.1.1.2,
         ne_nil_of_isEmpty_false _ h.1.1.2, h.1.2, h.2⟩

lemma all_nonws_of_hex (l : Str) (h : l.all isHexColon = true) :
    l.all (fun c => !(isPySpace c)) = true := by
  rw [List.all_eq_true] at h ⊢
  intro c hc
  simp [hexColon_not_space c (h c hc)]

lemma all_nonws_of_ip (ip : Str) (h : isIp4 ip = true) :
    ip.all (fun c => !(isPySpace c)) = true := by
  rw [List.all_eq_true]
  intro c hc
  rcases isIp4_chars ip h c hc with hdig | hdot
  · simp [digit_not_space c hdig]
  · subst hdot
    decide

lemma all_nonws_of_pair (l : Str)
    (h : l.all (fun c => !isPySpace c && !(c = ':')) = true) :
    l.all (fun c => !(isPySpace c)) = true := by
  rw [List.all_eq_true] at h ⊢
  intro c hc
  have := h c hc
  simp only [Bool.and_eq_true] at this
  exact this.1

lemma rowFacts (r : ArpRow) (h : arpRowOk r = true) :
    headNonWs (renderArpRow r) = true ∧
    lastNonWs (renderArpRow r) = true ∧
    (renderArpRow r).contains '\n' = false ∧
    containsCS tokTotalEntriesCS (renderArpRow r) = false := by
  obtain ⟨hm0, hm, hip, hi0, hi, hf0, hf, hct⟩ := arpRowOk_parts r h
  have hmn := all_nonws_of_hex _ hm
  have hipn := all_nonws_of_ip _ hip
  have hin := all_nonws_of_pair _ hi
  have hfn := all_nonws_of_pair _ hf
  refine ⟨?_, ?_, ?_, ?_⟩
  · rw [renderArpRow]
    exact headNonWs_append _ _ (headNonWs_all _ nonws_not_space _ hmn hm0)
  · rw [renderArpRow]
    have e : r.mac ++ ' ' :: (r.ip ++ ' ' :: (r.iface ++ ' ' :: r.flags))
        = (r.mac ++ ' ' :: (r.ip ++ ' ' :: (r.iface ++ [' ']))) ++ r.flags := by simp
    rw [e]
    exact lastNonWs_append _ _ hf0 (lastNonWs_all _ nonws_not_space _ hfn hf0)
  · rw [renderArpRow]
    refine contains_nl_append _ _ (contains_nl_false_all _ nonws_not_space _ hmn) ?_
    rw [show ' ' :: (r.ip ++ ' ' :: (r.iface ++ ' ' :: r.flags))
        = [' '] ++ (r.ip ++ ([' '] ++ (r.iface ++ ([' '] ++ r.flags)))) from by simp]
    refine contains_nl_append _ _ (by decide) ?_
    refine contains_nl_append _ _ (contains_nl_false_all _ nonws_not_space _ hipn) ?_
    refine contains_nl_append _ _ (by decide) ?_
    refine contains_nl_append _ _ (contains_nl_false_all _ nonws_not_space _ hin) ?_
    exact contains_nl_append _ _ (by decide) (contains_nl_false_all _ nonws_not_space _ hfn)
  · rw [show tokTotalEntriesCS = tokTotal ++ ' ' :: tokEntriesColon from by decide]
    exact containsCS_sub_CI tokTotal (' ' :: tokEntriesColon) _ hct (by decide)

lemma arpEntryMatch_render (r : ArpRow) (h : arpRowOk r = true) :
    arpEntryMatch (renderArpRow r)
      = some ⟨r.mac, r.ip, r.iface, r.flags⟩ := by
  obtain ⟨hm0, hm, hip, hi0, hi, hf0, hf, -⟩ := arpRowOk_parts r h
  have htok : tokSeq 4 (renderArpRow r) = some ([r.mac, r.ip, r.iface, r.flags], []) := by
    rw [renderArpRow]
    exact tokSeq4_run r.mac r.ip r.iface r.flags
      (all_nonws_of_hex _ hm) hm0 (all_nonws_of_ip _ hip)
      (by
        intro hh
        rw [isIp4, hh] at hip
        simp [splitDot] at hip)
      (all_nonws_of_pair _ hi) hi0 (all_nonws_of_pair _ hf) hf0
  rw [arpEntryMatch, htok]
  simp [isEmpty_false_of_ne _ hm0, hm, hip]

lemma entry_of_line (r : ArpRow) (h : arpRowOk r = true) :
    arpEntryMatch (pyStrip (renderArpRow r))
      = some ⟨r.mac, r.ip, r.iface, r.flags⟩ := by
  obtain ⟨hhead, hlast, -, -⟩ := rowFacts r h
  rw [pyStrip_noop _ hhead hlast, arpEntryMatch_render r h]

lemma total_line_no_entry (d : Str) (hd : d.all Char.isDigit = true) (hne : d ≠ []) :
    arpEntryMatch (pyStrip (totalPrefixTok ++ d)) = none := by
  have hdn : d.all (fun c => !(isPySpace c)) = true := by
    rw [List.all_eq_true] at hd ⊢
    intro c hc
    simp [digit_not_space c (hd c hc)]
  have hstrip : pyStrip (totalPrefixTok ++ d) = totalPrefixTok ++ d := by
    refine pyStrip_noop _ (headNonWs_append _ _ (by decide)) ?_
    exact lastNonWs_append _ _ hne (lastNonWs_all _ nonws_not_space d hdn hne)
  have e : totalPrefixTok ++ d = tokTotal ++ ' ' :: (tokEntriesColon ++ ' ' :: d) := by
    rw [show totalPrefixTok = tokTotal ++ ' ' :: (tokEntriesColon ++ [' ']) from by decide]
    simp
  have htok : tokSeq 4 (totalPrefixTok ++ d) = none := by
    rw [e]
    have e2 : tokSeq 2 d = none :=
      tokSeq_step_none 0 _ _ _ (nonWsPlus_end d hdn hne) wsPlus_nil
    have e3 : tokSeq 3 (tokEntriesColon ++ ' ' :: d) = none :=
      tokSeq_step_inner_none 1 _ _ _ _ _
        (nonWsPlus_run tokEntriesColon ' ' d (by decide) (by decide) (by decide))
        (wsPlus_one d (headNonWs_all _ nonws_not_space d hdn hne)) e2
    exact tokSeq_step_inner_none 2 _ _ _ _ _
      (nonWsPlus_run tokTotal ' ' _ (by decide) (by decide) (by decide))
      (wsPlus_one _ (headNonWs_append tokEntriesColon _ (by decide))) e3
  rw [hstrip, arpEntryMatch, htok]

lemma filterMap_arp_lines (rows : List ArpRow) (d : Str)
    (hrows : ∀ r ∈ rows, arpRowOk r = true)
    (hd : d.all Char.isDigit = true) (hne : d ≠ []) :
    (rows.map renderArpRow ++ [totalPrefixTok ++ d]).filterMap
        (fun l => arpEntryMatch (pyStrip l))
      = rows.map (fun r => ⟨r.mac, r.ip, r.iface, r.flags⟩) := by
  induction rows with
  | nil => simp [total_line_no_entry d hd hne]
  | cons r rest ih =>
    simp only [List.map_cons, List.cons_append, List.filterMap_cons,
               entry_of_line r (hrows r (List.mem_cons_self r rest))]
    rw [ih (fun x hx => hrows x (List.mem_cons_of_mem r hx))]

lemma arp_extract_eval (rows : List ArpRow) (d : Str)
    (hrows : ∀ r ∈ rows, arpRowOk r = true)
    (hd : d.all Char.isDigit = true) (hne : d ≠ []) :
    extract_show_arp_output_1 (mkArpTranscript rows d) = some (arpSegment rows d) := by
  have hls : ∀ l ∈ arpHeaderTok :: rows.map renderArpRow, containsCI tokTotal l = false := by
    intro l hl
    rcases List.mem_cons.mp hl with rfl | hl2
    · decide
    · obtain ⟨r, hr, rfl⟩ := List.mem_map.mp hl2
      exact (arpRowOk_parts r (hrows r hr)).2.2.2.2.2.2.2
  have hnl : ∀ l ∈ arpHeaderTok :: rows.map renderArpRow, l.contains '\n' = false := by
    intro l hl
    rcases List.mem_cons.mp hl with rfl | hl2
    · decide
    · obtain ⟨r, hr, rfl⟩ := List.mem_map.mp hl2
      exact (rowFacts r (hrows r hr)).2.2.1
  have hlast : ∀ l ∈ arpHeaderTok :: rows.map renderArpRow, lastNonWs l = true := by
    intro l hl
    rcases List.mem_cons.mp hl with rfl | hl2
    · decide
    · obtain ⟨r, hr, rfl⟩ := List.mem_map.mp hl2
      exact (rowFacts r (hrows r hr)).2.1
  have hdn : d.all (fun c => !(isPySpace c)) = true := by
    rw [List.all_eq_true] at hd ⊢
    intro c hc
    simp [digit_not_space c (hd c hc)]
  have hlastline : (totalPrefixTok ++ d).contains '\n' = false :=
    contains_nl_append _ _ (by decide) (contains_nl_false_all Char.isDigit digit_not_space d hd)
  have hfm : findMatchPre totalPatCI
      ('\n' :: (joinNlR (arpHeaderTok :: rows.map renderArpRow)
        ++ ((totalPrefixTok ++ d) ++ '\n' :: promptEndTok)))
      = some ('\n' :: joinNlR (arpHeaderTok :: rows.map renderArpRow),
              totalPrefixTok ++ d, '\n' :: promptEndTok) := by
    rw [findMatchPre_skip_nl totalPatCI tokTotal totalPatCI_fail (by decide) (by decide),
        findMatchPre_skip_block totalPatCI tokTotal totalPatCI_fail (by decide) (by decide)
          _ hls _,
        findMatchPre_at_head _ _ _ _ (by simp) (totalPat_at d promptEndTok hd hne)]
    simp
  have e : mkArpTranscript rows d = preTok ++ (arpCmdTok ++ '\n' ::
      (joinNlR (arpHeaderTok :: rows.map renderArpRow)
        ++ ((totalPrefixTok ++ d) ++ '\n' :: promptEndTok))) := by
    rw [mkArpTranscript]
    simp
  have hscan : arpScan (mkArpTranscript rows d)
      = some (arpCmdTok, '\n' :: joinNlR (arpHeaderTok :: rows.map renderArpRow),
              totalPrefixTok ++ d) := by
    rw [e, arpScan_skip_preTok]
    exact arpScan_at_head _ _ _ _ _ _ (by simp [arpCmdTok]) (cmdArp_at _) hfm
  rw [extract_show_arp_output_1, hscan]
  simp only [Option.map_some']
  have e2 : arpCmdTok ++ ('\n' :: joinNlR (arpHeaderTok :: rows.map renderArpRow))
        ++ (totalPrefixTok ++ d)
      = arpCmdTok ++ '\n' :: (joinNlR (arpHeaderTok :: rows.map renderArpRow)
        ++ (totalPrefixTok ++ d)) := by
    simp
  have hstrip : pyStrip (arpCmdTok ++ '\n' :: (joinNlR (arpHeaderTok :: rows.map renderArpRow)
        ++ (totalPrefixTok ++ d)))
      = arpCmdTok ++ '\n' :: (joinNlR (arpHeaderTok :: rows.map renderArpRow)
        ++ (totalPrefixTok ++ d)) := by
    rw [pyStrip, pyLStrip_noop _ (headNonWs_append _ _ (by decide))]
    have e3 : arpCmdTok ++ '\n' :: (joinNlR (arpHeaderTok :: rows.map renderArpRow)
          ++ (totalPrefixTok ++ d))
        = (arpCmdTok ++ '\n' :: (joinNlR (arpHeaderTok :: rows.map renderArpRow)
          ++ totalPrefixTok)) ++ d := by
      simp
    rw [e3, pyRStrip_noop]
    exact lastNonWs_append _ _ hne (lastNonWs_all _ nonws_not_space d hdn hne)
  have hsplit : splitNl (arpCmdTok ++ '\n' :: (joinNlR (arpHeaderTok :: rows.map renderArpRow)
        ++ (totalPrefixTok ++ d)))
      = arpCmdTok :: ((arpHeaderTok :: rows.map renderArpRow) ++ [totalPrefixTok ++ d]) := by
    rw [splitNl_append_line _ (by decide),
        splitNl_joinNlR_last _ _ hnl hlastline]
  rw [e2, arpBody, hstrip, hsplit]
  have e4 : (arpCmdTok :: ((arpHeaderTok :: rows.map renderArpRow) ++ [totalPrefixTok ++ d])).drop 1
      = arpHeaderTok :: (rows.map renderArpRow ++ [totalPrefixTok ++ d]) := by
    simp
  rw [e4]
  have hph : headNonWs (joinNl (arpHeaderTok :: (rows.map renderArpRow ++ [totalPrefixTok ++ d]))) = true :=
    headNonWs_joinNl _ _ (by decide)
  have hpl : lastNonWs (joinNl (arpHeaderTok :: (rows.map renderArpRow ++ [totalPrefixTok ++ d]))) = true := by
    refine lastNonWs_joinNl _ ?_ (by simp)
    intro l hl
    rcases List.mem_cons.mp hl with rfl | hl2
    · decide
    rcases List.mem_append.mp hl2 with hl3 | hl3
    · exact hlast l (List.mem_cons_of_mem _ hl3)
    · rcases List.mem_singleton.mp hl3 with rfl
      exact lastNonWs_append _ _ hne (lastNonWs_all _ nonws_not_space d hdn hne)
  rw [pyStrip_noop _ hph hpl, arpSegment]
  simp

lemma arp_parse_eval (rows : List ArpRow) (d : Str)
    (hrows : ∀ r ∈ rows, arpRowOk r = true)
    (hd : d.all Char.isDigit = true) (hne : d ≠ []) :
    (parse_show_arp_no_resolve_regex (arpSegment rows d)).entries
        = rows.map (fun r => ⟨r.mac, r.ip, r.iface, r.flags⟩) ∧
    (parse_show_arp_no_resolve_regex (arpSegment rows d)).total_entries
        = if digitsVal d = 0 then rows.length else digitsVal d := by
  have hlastline : (totalPrefixTok ++ d).contains '\n' = false :=
    contains_nl_append _ _ (by decide) (contains_nl_false_all Char.isDigit digit_not_space d hd)
  have hnl : ∀ l ∈ arpHeaderTok :: (rows.map renderArpRow ++ [totalPrefixTok ++ d]),
      l.contains '\n' = false := by
    intro l hl
    rcases List.mem_cons.mp hl with rfl | hl2
    · decide
    rcases List.mem_append.mp hl2 with hl3 | hl3
    · obtain ⟨r, hr, rfl⟩ := List.mem_map.mp hl3
      exact (rowFacts r (hrows r hr)).2.2.1
    · rcases List.mem_singleton.mp hl3 with rfl
      exact hlastline
  have hcs : ∀ l ∈ arpHeaderTok :: rows.map renderArpRow,
      containsCS tokTotalEntriesCS l = false := by
    intro l hl
    rcases List.mem_cons.mp hl with rfl | hl2
    · decide
    · obtain ⟨r, hr, rfl⟩ := List.mem_map.mp hl2
      exact (rowFacts r (hrows r hr)).2.2.2
  have hsplit : splitNl (arpSegment rows d)
      = arpHeaderTok :: (rows.map renderArpRow ++ [totalPrefixTok ++ d]) := by
    rw [arpSegment]
    exact splitNl_joinNl _ hnl (by simp)
  have hfind : findTotalCS (arpSegment rows d) = some (digitsVal d) := by
    have e : arpSegment rows d
        = joinNlR (arpHeaderTok :: rows.map renderArpRow) ++ (totalPrefixTok ++ d) := by
      rw [arpSegment, joinNl_eq_joinNlR_append]
    rw [e, findTotalCS_skip_block _ hcs _,
        show totalPrefixTok ++ d = tokTotalEntriesCS ++ ' ' :: d from rfl]
    exact findTotalCS_at_head _ _ (by simp) (totalCapture_at d hd hne)
  have hent : (splitNl (arpSegment rows d)).filterMap (fun l => arpEntryMatch (pyStrip l))
      = rows.map (fun r => ⟨r.mac, r.ip, r.iface, r.flags⟩) := by
    rw [hsplit, List.filterMap_cons,
        show arpEntryMatch (pyStrip arpHeaderTok) = none from by decide]
    exact filterMap_arp_lines rows d hrows hd hne
  constructor
  · simp only [parse_show_arp_no_resolve_regex]
    exact hent
  · simp only [parse_show_arp_no_resolve_regex, hfind, hent, Option.getD_some]
    by_cases h0 : digitsVal d = 0 <;> simp [h0]

/-- **C6**: for a transcript holding one well-formed ARP block — header,
`N` tidy table rows, a `Total entries: d` line with `int(d) = N` — the
extractor returns exactly the block (header, rows, total line), and
parsing that segment yields `total_entries = N` with `N` parsed entry
records; composing parse with extract gives the same collection. -/
theorem arp_round_trip (rows : List ArpRow) (d : Str)
    (hrows : ∀ r ∈ rows, arpRowOk r = true)
    (hd : d.all Char.isDigit = true) (hne : d ≠ [])
    (hdv : digitsVal d = rows.length) :
    extract_show_arp_output_1 (mkArpTranscript rows d) = some (arpSegment rows d) ∧
    parse_show_arp_no_resolve (extract_show_arp_output_1 (mkArpTranscript rows d))
      = Except.ok (parse_show_arp_no_resolve_regex (arpSegment rows d)) ∧
    (parse_show_arp_no_resolve_regex (arpSegment rows d)).total_entries = rows.length ∧
    (parse_show_arp_no_resolve_regex (arpSegment rows d)).entries.length = rows.length := by
  have hext := arp_extract_eval rows d hrows hd hne
  obtain ⟨hent, htot⟩ := arp_parse_eval rows d hrows hd hne
  refine ⟨hext, ?_, ?_, ?_⟩
  · rw [hext]
    rfl
  · rw [htot, hdv]
    simp
  · rw [hent, List.length_map]

/-- Witness: two concrete rows and `Total entries: 2`. -/
theorem arp_round_trip_witness :
    extract_show_arp_output_1 (mkArpTranscript [c6Row1, c6Row2] c6D)
      = some (arpSegment [c6Row1, c6Row2] c6D) ∧
    parse_show_arp_no_resolve (extract_show_arp_output_1 (mkArpTranscript [c6Row1, c6Row2] c6D))
      = Except.ok (parse_show_arp_no_resolve_regex (arpSegment [c6Row1, c6Row2] c6D)) ∧
    (parse_show_arp_no_resolve_regex (arpSegment [c6Row1, c6Row2] c6D)).total_entries = 2 ∧
    (parse_show_arp_no_resolve_regex (arpSegment [c6Row1, c6Row2] c6D)).entries.length = 2 :=
  arp_round_trip [c6Row1, c6Row2] c6D (by decide) (by decide) (by decide) (by decide)
